import Mathlib

/-!
Verification of the repository-analysis engine of CodeSorcerer.

This file gives a shallow embedding, in Lean 4, of the pure analysis core of
the repository: the boilerplate/third-party/custom classifier
(`audit_near/providers/boilerplate_detector.py`), the file categorizer
(`audit_near/providers/file_categorizer.py`), the dependency analyzer
(`audit_near/providers/dependency_analyzer.py`), the token-budgeted code
sampler (`audit_near/categories/code_quality.py`) and the orchestrating
`RepoAnalyzer` (`audit_near/providers/repo_analyzer.py`), together with
theorems about these definitions.

Modelling conventions:
* a source file is a `(path, content)` pair of strings;
* Python dictionaries (which have unique keys and preserve insertion order)
  are modelled as association lists with unique keys in insertion order;
  Python sets of strings are modelled as duplicate-free lists;
* the fixed regular expressions of the source are modelled by hand-written
  matchers faithful to each pattern (most patterns are literal substrings;
  `a.*b` patterns are "`a` then `b` later on the same line" because `.`
  does not match a newline);
* `random.sample` and the per-language raw regex match lists of the
  dependency analyzer are abstracted as function parameters where a theorem
  is quantified over them, and instantiated with concrete executable
  models where a concrete run is evaluated.
-/

namespace CodeSorcerer

/-- A repository file: `(path, content)`. -/
abbrev SrcFile := String × String

/-! ## Generic string helpers (Python substring and path primitives) -/

/-- Model of `occursInfixOf pat l`: `pat` occurs as a contiguous sublist of `l`. -/
def occursInfixOf (pat : List Char) : List Char → Bool
  | [] => pat.isEmpty
  | c :: t => pat.isPrefixOf (c :: t) || occursInfixOf pat t

/-- Python `pat in s` / `re.search` of a literal pattern: `pat` occurs as a
contiguous substring of `s`. -/
def containsStr (s pat : String) : Bool :=
  occursInfixOf pat.toList s.toList

/-- The single-quote character, used to build pattern strings that mention
string quotes. -/
def sq : String := String.mk [Char.ofNat 39]

/-- Python `s.split(sep)` for a single-character separator: splits on every
occurrence, keeping empty pieces (`"" ↦ [""]`). -/
def splitOnChar (sep : Char) : List Char → List (List Char)
  | [] => [[]]
  | c :: t =>
    let r := splitOnChar sep t
    if c = sep then [] :: r
    else
      match r with
      | h :: r' => (c :: h) :: r'
      | [] => [[c]]

/-- ASCII lower-casing of one character (Python `str.lower` restricted to
ASCII, which covers every string the analyzer lower-cases). -/
def lowerChar (c : Char) : Char :=
  if 'A' ≤ c && c ≤ 'Z' then Char.ofNat (c.toNat + 32) else c

/-- ASCII `str.lower` on a character list. -/
def toLowerList (l : List Char) : List Char := l.map lowerChar

/-- ASCII `str.lower` on a string. -/
def strLower (s : String) : String := String.mk (toLowerList s.toList)

/-- Model of `str.join`-style joining with a separator list. -/
def joinWith (sep : List Char) : List (List Char) → List Char
  | [] => []
  | [x] => x
  | x :: y :: t => x ++ sep ++ joinWith sep (y :: t)

/-- Helper for `seqChain`: try the piece `p` at every start position of the
line and hand the remainder to the continuation `k`. -/
def seqChainAux (p : List Char) (k : List Char → Bool) : List Char → Bool
  | [] => p.isPrefixOf [] && k []
  | c :: t => (p.isPrefixOf (c :: t) && k ((c :: t).drop p.length)) || seqChainAux p k t

/-- Model of `seqChain ps l`: the pieces `ps` occur in `l`, in order, without
overlapping — the semantics of a regex `p₀.*p₁.*…` restricted to one line. -/
def seqChain : List (List Char) → List Char → Bool
  | [] => fun _ => true
  | p :: ps => seqChainAux p (seqChain ps)

/-- Model of `re.search` for a pattern of literal pieces separated by `.*`:
some line of `s` contains the pieces in order (`.` does not match `\n`,
and none of the pieces used contains `\n`). -/
def lineChain (s : String) (parts : List String) : Bool :=
  (splitOnChar '\n' s.toList).any fun ln => seqChain (parts.map String.toList) ln

/-- Python `os.path.basename` for forward-slash paths. -/
def basename (p : String) : String :=
  match (splitOnChar '/' p.toList).getLast? with
  | some b => String.mk b
  | none => p

/-- Python `os.path.splitext(p)[1]`: the extension of the basename,
starting at its last dot — empty when the basename has no dot or only
leading dots. -/
def splitextExt (p : String) : String :=
  let b := (basename p).toList
  let rec go (pre : List Char) (rest : List Char) (acc : String) : String :=
    match rest with
    | [] => acc
    | c :: t =>
      if c = '.' && pre.any (fun d => d ≠ '.') then
        go (pre ++ [c]) t (String.mk (c :: t))
      else
        go (pre ++ [c]) t acc
  go [] b ""

/-- Model of `os.path.splitext(file_path)[1].lower()`, as used throughout the code. -/
def extLower (p : String) : String :=
  strLower (splitextExt p)

/-! ## BoilerplateDetector (`boilerplate_detector.py`)

`is_boilerplate_file`, `is_third_party_file` and `get_file_classification`.
Every regex in these two pattern lists is a literal substring once escapes
are removed, except `third[_-]party/` which is the two literal alternatives
`third_party/` and `third-party/`. -/

/-- The `boilerplate_file_patterns` list of `is_boilerplate_file`. -/
def boilerplateFilePatterns : List String :=
  [ "src/serviceWorker.js", "src/setupTests.js", "src/reportWebVitals.js",
    "tsconfig.json", "babel.config.js", "jest.config.js", "webpack.config.js",
    ".eslintrc.js", ".prettierrc",
    "CONTRIBUTING.md", "CODE_OF_CONDUCT.md" ]

/-- The `boilerplate_content_patterns` list of `is_boilerplate_file`. -/
def boilerplateContentPatterns : List String :=
  [ "This code was generated by create-react-app",
    "This file is auto-generated", "// @generated",
    "# Code of Conduct", "# Contributing",
    "MIT License", "Apache License",
    "\"compilerOptions\":" ]

/-- Model of `BoilerplateDetector.is_boilerplate_file`. -/
def isBoilerplateFile (path content : String) : Bool :=
  boilerplateFilePatterns.any (containsStr path) ||
    boilerplateContentPatterns.any (containsStr content)

/-- The `third_party_dir_patterns` list of `is_third_party_file`;
`third[_-]party/` is expanded into its two alternatives. -/
def thirdPartyDirPatterns : List String :=
  [ "node_modules/", "vendor/", "third_party/", "third-party/",
    "external/", "lib/", "libs/", "packages/", "dist/", "build/" ]

/-- Model of `BoilerplateDetector.is_third_party_file`. -/
def isThirdPartyFile (path : String) : Bool :=
  thirdPartyDirPatterns.any (containsStr path)

/-- Model of `BoilerplateDetector.get_file_classification`. -/
def getFileClassification (path content : String) : String :=
  if isBoilerplateFile path content then "boilerplate"
  else if isThirdPartyFile path then "third-party"
  else "custom"

example : getFileClassification "vendor/tsconfig.json" "" = "boilerplate" := by decide
example : getFileClassification "vendor/x.js" "" = "third-party" := by decide
example : getFileClassification "src/app.py" "x" = "custom" := by decide

/-! ## FileCategorizer (`file_categorizer.py`)

Each category is a record of allowed extensions, path matchers, content
matchers and exact filenames, mirroring the pattern dictionaries of
`_init_category_patterns`.  A regex `x[s]?/` is expanded into its two
alternatives, and `a.*b` patterns become `lineChain`. -/

/-- One category's pattern dictionary. -/
structure CategoryPatterns where
  extensions : List String
  pathPatterns : List (String → Bool)
  contentPatterns : List (String → Bool)
  filenames : List String

/-- Model of `self.near_integration_patterns`. -/
def nearIntegrationPatterns : CategoryPatterns where
  extensions := [".js", ".ts", ".jsx", ".tsx", ".rs", ".py", ".wasm"]
  pathPatterns :=
    [ fun p => containsStr p "contract/" || containsStr p "contracts/",
      fun p => containsStr p "near",
      fun p => containsStr p "blockchain",
      fun p => containsStr p "wallet",
      fun p => containsStr p "token" ]
  contentPatterns :=
    [ fun c => lineChain c ["import", "near-api-js"],
      fun c => lineChain c ["import", "from " ++ sq ++ "near-"] ||
               lineChain c ["import", "from \"near-"],
      fun c => containsStr c "new near.",
      fun c => [sq, "\""].any fun q1 => [sq, "\""].any fun q2 =>
                 lineChain c [".connect(", q1 ++ "near", q2 ++ ")"],
      fun c => containsStr c ".accountId",
      fun c => containsStr c ".createTransaction",
      fun c => containsStr c ".functionCall",
      fun c => containsStr c ".viewFunction",
      fun c => containsStr c "use near_sdk",
      fun c => containsStr c "#[near(",
      fun c => lineChain c ["#[derive(", "Near"],
      fun c => containsStr c "import near",
      fun c => containsStr c "from near" ]
  filenames := ["near.config.js", "near.config.ts"]

/-- Model of `self.onchain_quality_patterns`. -/
def onchainQualityPatterns : CategoryPatterns where
  extensions := [".rs", ".js", ".ts", ".wasm"]
  pathPatterns :=
    [ fun p => containsStr p "contract/" || containsStr p "contracts/",
      fun p => lineChain p ["near", "contract"],
      fun p => containsStr p "blockchain" ]
  contentPatterns :=
    [ fun c => containsStr c "#[near(",
      fun c => containsStr c "#[payable]",
      fun c => containsStr c "Contract",
      fun c => containsStr c "transfer",
      fun c => containsStr c "balance_of",
      fun c => containsStr c "assert!",
      fun c => containsStr c "require(",
      fun c => containsStr c "state",
      fun c => containsStr c ".signAndSendTransaction",
      fun c => containsStr c ".functionCall",
      fun c => containsStr c ".sendTokens",
      fun c => containsStr c ".stake" ]
  filenames := ["contract.rs", "contract.ts", "contract.js"]

/-- Model of `self.offchain_quality_patterns` (without its `exclude_patterns`, which
`categorize_files` applies separately). -/
def offchainQualityPatterns : CategoryPatterns where
  extensions := [".js", ".ts", ".jsx", ".tsx", ".py", ".html", ".css", ".vue", ".svelte"]
  pathPatterns :=
    [ fun p => containsStr p "src/",
      fun p => containsStr p "pages/",
      fun p => containsStr p "components/",
      fun p => containsStr p "api/",
      fun p => containsStr p "backend/",
      fun p => containsStr p "frontend/",
      fun p => containsStr p "ui/",
      fun p => containsStr p "views/",
      fun p => containsStr p "hooks/",
      fun p => containsStr p "utils/",
      fun p => containsStr p "services/" ]
  contentPatterns :=
    [ fun c => containsStr c "import React",
      fun c => containsStr c "import Vue",
      fun c => containsStr c "import Angular",
      fun c => lineChain c ["import", "svelte"],
      fun c => lineChain c ["import", "next"],
      fun c => lineChain c ["import", "nuxt"],
      fun c => containsStr c "import express",
      fun c => containsStr c "import fastify",
      fun c => containsStr c "import nestjs",
      fun c => containsStr c "import flask",
      fun c => containsStr c "import django",
      fun c => containsStr c "import fastapi",
      fun c => containsStr c "fetch(",
      fun c => containsStr c "axios.",
      fun c => containsStr c ".get(",
      fun c => containsStr c ".post(",
      fun c => containsStr c "api.",
      fun c => containsStr c "router.",
      fun c => containsStr c "app.use(",
      fun c => containsStr c "app.get(",
      fun c => containsStr c "app.post(" ]
  filenames := []

/-- The `exclude_patterns` of `self.offchain_quality_patterns`. -/
def offchainExcludePatterns : List (String → Bool) :=
  [ fun p => containsStr p "contract/" || containsStr p "contracts/",
    fun p => containsStr p "node_modules/",
    fun p => containsStr p ".test.",
    fun p => containsStr p ".spec." ]

/-- Model of `self.code_quality_documentation_patterns`. -/
def codeQualityDocumentationPatterns : CategoryPatterns where
  extensions :=
    [ ".js", ".ts", ".jsx", ".tsx", ".py", ".rs", ".go", ".java", ".c", ".cpp", ".cs",
      ".html", ".css", ".scss", ".sass", ".less",
      ".md", ".rst", ".txt", ".adoc", ".wiki", ".ipynb" ]
  pathPatterns :=
    [ fun p => containsStr p "src/",
      fun p => containsStr p "doc/" || containsStr p "docs/",
      fun p => containsStr p "wiki/",
      fun p => containsStr p "example/" || containsStr p "examples/",
      fun p => containsStr p "tutorial/" || containsStr p "tutorials/" ]
  contentPatterns := []
  filenames :=
    [ "README.md", "CONTRIBUTING.md", "CHANGELOG.md",
      "LICENSE", "CODE_OF_CONDUCT.md", "SECURITY.md",
      "api.md", "architecture.md", "design.md" ]

/-- Model of `self.technical_innovation_patterns` (without its `exclude_patterns`). -/
def technicalInnovationPatterns : CategoryPatterns where
  extensions := [".js", ".ts", ".jsx", ".tsx", ".py", ".rs", ".go", ".wasm"]
  pathPatterns :=
    [ fun p => containsStr p "src/core/",
      fun p => containsStr p "src/lib/",
      fun p => containsStr p "lib/",
      fun p => containsStr p "algorithm/",
      fun p => containsStr p "engine/",
      fun p => containsStr p "core/" ]
  contentPatterns := []
  filenames := []

/-- The `exclude_patterns` of `self.technical_innovation_patterns`. -/
def technicalInnovationExcludePatterns : List (String → Bool) :=
  [ fun p => containsStr p ".test.",
    fun p => containsStr p ".spec.",
    fun p => containsStr p "test/",
    fun p => containsStr p "tests/",
    fun p => containsStr p "__tests__/" ]

/-- Model of `FileCategorizer._matches_category`: the extension gate covers the path
and content patterns only; the filename check is independent of it. -/
def matchesCategory (filePath fileName fileExt content : String)
    (pat : CategoryPatterns) : Bool :=
  (pat.extensions.contains fileExt &&
    (pat.pathPatterns.any (fun m => m filePath) ||
     pat.contentPatterns.any (fun m => m content))) ||
  pat.filenames.contains fileName

/-- Wrapper: `matchesCategory` applied to a file, with basename and lowered extension
computed as in `categorize_files`. -/
def matchesCategoryFile (f : SrcFile) (pat : CategoryPatterns) : Bool :=
  matchesCategory f.1 (basename f.1) (extLower f.1) f.2 pat

/-- The trailing candidate strings for the regex end-anchor `$`: the whole
string, and the string without a single final newline. -/
def dollarCandidates (l : List Char) : List (List Char) :=
  if l.getLast? = some '\n' then [l, l.dropLast] else [l]

/-- Model of `listSuffix s t`: `s` is a suffix of `t`. -/
def listSuffix (s t : List Char) : Bool :=
  s.reverse.isPrefixOf t.reverse

/-- Some suffix of `l` starts with `doc/` or `docs/` and contains no
newline (the `docs?/.*` part of the grant-impact doc regex). -/
def hasDocSegment : List Char → Bool
  | [] => false
  | c :: t =>
    (("doc/".toList.isPrefixOf (c :: t) || "docs/".toList.isPrefixOf (c :: t)) &&
      (c :: t).all (fun d => d ≠ '\n')) || hasDocSegment t

/-- The regex `docs?/.*\.(md|rst|txt)$` with `re.IGNORECASE`, used by the
grant-impact special case of `categorize_files`. -/
def docsPathPattern (p : String) : Bool :=
  (dollarCandidates (toLowerList p.toList)).any fun t =>
    ([".md", ".rst", ".txt"].any fun s => listSuffix s.toList t) && hasDocSegment t

/-- The lowercased filename set of the grant-impact special case. -/
def grantImpactNames : List String :=
  ["readme.md", "design.md", "architecture.md", "overview.md", "vision.md"]

/-- The grant-impact special case of `categorize_files`. -/
def grantImpactMatch (filePath fileName : String) : Bool :=
  grantImpactNames.contains (strLower fileName) || docsPathPattern filePath

/-- Model of `FileCategorizer.categorize_files`: the seven categories in dictionary
insertion order; each per-file `append` loop is a `filter` over the input
order. -/
def categorizeFiles (files : List SrcFile) : List (String × List SrcFile) :=
  [ ("near_protocol_integration",
      files.filter fun f => matchesCategoryFile f nearIntegrationPatterns),
    ("onchain_quality",
      files.filter fun f => matchesCategoryFile f onchainQualityPatterns),
    ("offchain_quality",
      files.filter fun f => matchesCategoryFile f offchainQualityPatterns &&
        !(offchainExcludePatterns.any fun e => e f.1)),
    ("code_quality_documentation",
      files.filter fun f => matchesCategoryFile f codeQualityDocumentationPatterns),
    ("technical_innovation",
      files.filter fun f => matchesCategoryFile f technicalInnovationPatterns &&
        !(technicalInnovationExcludePatterns.any fun e => e f.1)),
    ("team_activity_project_maturity", files),
    ("grant_impact_ecosystem_fit",
      files.filter fun f => grantImpactMatch f.1 (basename f.1)) ]

/-- Lookup of a category's file list in a `categorize_files` result. -/
def catLookup (cats : List (String × List SrcFile)) (name : String) : List SrcFile :=
  match cats.find? (fun e => e.1 == name) with
  | some e => e.2
  | none => []

example :
    catLookup (categorizeFiles [("contract.rs", "#[near(")]) "near_protocol_integration"
      = [("contract.rs", "#[near(")] := by decide
example :
    catLookup (categorizeFiles [("contract.rs", "#[near(")]) "onchain_quality"
      = [("contract.rs", "#[near(")] := by decide
example :
    catLookup (categorizeFiles [("LICENSE", "")]) "code_quality_documentation"
      = [("LICENSE", "")] := by decide
example :
    catLookup (categorizeFiles [("docs/guide.md", "")]) "grant_impact_ecosystem_fit"
      = [("docs/guide.md", "")] := by decide

/-! ## DependencyAnalyzer (`dependency_analyzer.py`)

The regex families of `self.import_patterns` are abstracted as a parameter
`raw : String → String → List String` (extension ↦ content ↦ captured groups
in scan order); the graph-soundness theorem is quantified over it.  The two
Python patterns are additionally implemented concretely (`pyImportMatcher`)
so that concrete runs over `.py` files can be evaluated. -/

/-- Python whitespace (`str.strip`, regex `\s`, ASCII range). -/
def isPySpace (c : Char) : Bool :=
  c = ' ' || c = '\t' || c = '\n' || c = '\r' || c = Char.ofNat 11 || c = Char.ofNat 12

/-- Python `str.strip()`. -/
def pyStrip (s : String) : String :=
  String.mk (((s.toList.dropWhile isPySpace).reverse.dropWhile isPySpace).reverse)

/-- The extension keys of `self.import_patterns`. -/
def importPatternExts : List String := [".js", ".jsx", ".ts", ".tsx", ".py", ".rs"]

/-- Model of `self.extension_to_language`. -/
def extensionToLanguage : List (String × String) :=
  [ (".js", "javascript"), (".jsx", "javascript"),
    (".ts", "typescript"), (".tsx", "typescript"),
    (".py", "python"), (".rs", "rust") ]

/-- First-match association-list lookup (Python dict `.get`). -/
def assocLookup {α : Type} (l : List (String × α)) (k : String) : Option α :=
  (l.find? (fun e => e.1 == k)).map (fun e => e.2)

/-- The Python standard-library allowlist of `_is_builtin_module`. -/
def pythonBuiltinModules : List String :=
  [ "os", "sys", "re", "math", "datetime", "time", "json",
    "logging", "unittest", "collections", "argparse", "pathlib",
    "typing", "io", "random", "functools", "itertools", "urllib",
    "http", "threading", "multiprocessing" ]

/-- The node.js builtin allowlist of `_is_builtin_module`. -/
def jsBuiltinModules : List String :=
  [ "fs", "path", "os", "http", "https", "net", "dns", "crypto",
    "stream", "util", "events", "child_process", "url", "querystring",
    "assert", "buffer", "cluster", "console", "constants", "dgram",
    "domain", "punycode", "readline", "repl", "string_decoder",
    "timers", "tls", "tty", "v8", "vm", "zlib" ]

/-- The Rust builtin allowlist of `_is_builtin_module`. -/
def rustBuiltinModules : List String :=
  ["std", "core", "alloc", "test", "proc_macro"]

/-- Python `module_name.split('.')[0]`. -/
def upToDot (l : List Char) : List Char := l.takeWhile (fun c => c ≠ '.')

/-- Python `module_name.split('::')[0]`. -/
def upToDoubleColon : List Char → List Char
  | [] => []
  | ':' :: ':' :: _ => []
  | c :: t => c :: upToDoubleColon t

/-- Model of `DependencyAnalyzer._is_builtin_module`. -/
def isBuiltinModule (moduleName ext : String) : Bool :=
  match assocLookup extensionToLanguage ext with
  | some "python" => pythonBuiltinModules.contains (String.mk (upToDot moduleName.toList))
  | some "javascript" => jsBuiltinModules.contains moduleName
  | some "typescript" => jsBuiltinModules.contains moduleName
  | some "rust" => rustBuiltinModules.contains (String.mk (upToDoubleColon moduleName.toList))
  | _ => false

/-- Model of `DependencyAnalyzer._extract_module_name`. -/
def extractModuleName (p ext : String) : String :=
  let root :=
    if ext ≠ "" then String.mk (p.toList.take (p.toList.length - ext.toList.length))
    else p
  if ext = ".py" || ext = ".pyw" then
    String.mk (root.toList.map fun c => if c = '/' then '.' else if c = '\\' then '.' else c)
  else root

/-- In-place dictionary assignment `d[k] = v` on an association list with
unique keys. -/
def assocSet (l : List (String × String)) (k v : String) : List (String × String) :=
  match l with
  | [] => [(k, v)]
  | (k', v') :: t => if k' == k then (k, v) :: t else (k', v') :: assocSet t k v

/-- The `file_by_module` index of `_build_dependency_graph` (later files
overwrite earlier ones with the same module name, as in a Python dict). -/
def buildFileByModule (files : List SrcFile) : List (String × String) :=
  files.foldl (fun acc f => assocSet acc (extractModuleName f.1 (extLower f.1)) f.1) []

/-- Model of `posixpath.dirname`. -/
def dirname (p : String) : String :=
  let l := p.toList
  let head := (l.reverse.dropWhile (fun c => c ≠ '/')).reverse
  if head ≠ [] && !(head.all (fun c => c = '/')) then
    String.mk ((head.reverse.dropWhile (fun c => c = '/')).reverse)
  else String.mk head

/-- Model of `posixpath.join` for two components. -/
def joinPath (a b : String) : String :=
  if "/".toList.isPrefixOf b.toList then b
  else if a = "" || listSuffix ['/'] a.toList then String.mk (a.toList ++ b.toList)
  else String.mk (a.toList ++ '/' :: b.toList)

/-- Model of `posixpath.normpath`. -/
def normpath (p : String) : String :=
  if p = "" then "." else
  let l := p.toList
  let slashes : Nat :=
    if "///".toList.isPrefixOf l then 1
    else if "//".toList.isPrefixOf l then 2
    else if "/".toList.isPrefixOf l then 1
    else 0
  let comps := splitOnChar '/' l
  let newComps := comps.foldl
    (fun acc comp =>
      if comp = [] || comp = ['.'] then acc
      else if comp ≠ ['.', '.'] || (slashes = 0 && acc.isEmpty) ||
              acc.head? = some ['.', '.'] then comp :: acc
      else if !acc.isEmpty then acc.tail
      else acc)
    []
  let joined := joinWith ['/'] newComps.reverse
  let res := List.replicate slashes '/' ++ joined
  if res = [] then "." else String.mk res

/-- The extension list tried by `_resolve_import` for relative imports. -/
def resolveExtCandidates : List String := [".js", ".jsx", ".ts", ".tsx", ".py", ".rs"]

/-- The index-file extension list tried by `_resolve_import`. -/
def resolveIndexExts : List String := [".js", ".jsx", ".ts", ".tsx"]

/-- First candidate found in the module index. -/
def firstHit (fbm : List (String × String)) : List String → Option String
  | [] => none
  | c :: t =>
    match assocLookup fbm c with
    | some f => some f
    | none => firstHit fbm t

/-- The relative-import block of `_resolve_import` (`./` and `../`): it
resolves against the importing file's directory, trying the raw path,
each supported extension and the `index.<ext>` conventions. -/
def resolveRelative (imported importing : String) (fbm : List (String × String)) :
    Option String :=
  if "./".toList.isPrefixOf imported.toList ||
      "../".toList.isPrefixOf imported.toList then
    let dir := dirname importing
    let resolved := normpath (joinPath dir imported)
    match assocLookup fbm resolved with
    | some f => some f
    | none =>
      match firstHit fbm (resolveExtCandidates.map fun e =>
          String.mk (resolved.toList ++ e.toList)) with
      | some f => some f
      | none =>
        firstHit fbm (resolveIndexExts.map fun e =>
          joinPath resolved (String.mk ("index".toList ++ e.toList)))
  else none

/-- The dotted-import block of `_resolve_import`: try `<path>.py` and
`<path>/__init__.py`. -/
def resolveDotted (imported : String) (fbm : List (String × String)) :
    Option String :=
  if imported.toList.contains '.' && !(['.'].isPrefixOf imported.toList) then
    let pathForm := String.mk (imported.toList.map fun c => if c = '.' then '/' else c)
    match assocLookup fbm (String.mk (pathForm.toList ++ ".py".toList)) with
    | some f => some f
    | none => assocLookup fbm (String.mk (pathForm.toList ++ "/__init__.py".toList))
  else none

/-- Model of `DependencyAnalyzer._resolve_import`: direct module-index
hit, then the relative block, then the dotted block, each early-returning;
it returns the empty string exactly where the source does for an
unresolvable module. -/
def resolveImport (imported importing : String) (fbm : List (String × String)) : String :=
  match assocLookup fbm imported with
  | some f => f
  | none =>
    match resolveRelative imported importing fbm with
    | some f => f
    | none =>
      match resolveDotted imported fbm with
      | some f => f
      | none => ""

/-- Model of `DependencyAnalyzer._extract_imports` with the raw regex matching of the
pattern families abstracted as `raw`: groups are stripped, then imports
recognized as builtin are skipped. -/
def extractImports (raw : String → String → List String) (content ext : String) :
    List String :=
  ((raw ext content).map pyStrip).filter fun m => !(isBuiltinModule m ext)

/-- The dependency graph: a dict mapping a path to its set of targets,
modelled as an association list (keys in insertion order, unique) whose
values are duplicate-free lists. -/
abbrev Graph := List (String × List String)

/-- Model of `graph[file_path].add(imported_file)` on a `defaultdict(set)`. -/
def addEdge : Graph → String → String → Graph
  | [], a, b => [(a, [b])]
  | (k, ts) :: g, a, b =>
    if k == a then (k, if ts.contains b then ts else ts ++ [b]) :: g
    else (k, ts) :: addEdge g a b

/-- Boolean edge membership in the built graph. -/
def edgeMem (g : Graph) (a b : String) : Bool :=
  g.any fun e => e.1 == a && e.2.contains b

/-- The inner loop of `_build_dependency_graph`: it adds one edge per
resolved module of the file at `p`, skipping unresolved empty targets. -/
def addImportEdges (fbm : List (String × String)) (p : String) (g : Graph)
    (imports : List String) : Graph :=
  imports.foldl
    (fun g' m =>
      let tgt := resolveImport m p fbm
      if tgt ≠ "" then addEdge g' p tgt else g')
    g

/-- The per-file step of `_build_dependency_graph`: files with unsupported
extensions are skipped. -/
def addFileEdges (raw : String → String → List String)
    (fbm : List (String × String)) (g : Graph) (f : SrcFile) : Graph :=
  let ext := extLower f.1
  if importPatternExts.contains ext then
    addImportEdges fbm f.1 g (extractImports raw f.2 ext)
  else g

/-- Model of `DependencyAnalyzer._build_dependency_graph`. -/
def buildDependencyGraph (raw : String → String → List String)
    (files : List SrcFile) : Graph :=
  files.foldl (addFileEdges raw (buildFileByModule files)) []

/-- Number of graph values containing `n` (`in_degree` of
`_calculate_centrality`, `sum(1 for deps in graph.values() if node in deps)`). -/
def inDegree (g : Graph) (n : String) : Nat :=
  g.countP fun e => e.2.contains n

/-- Model of `len(graph[node])` for keys, `0` for non-keys. -/
def outDegree (g : Graph) (n : String) : Nat :=
  match g.find? (fun e => e.1 == n) with
  | some e => e.2.length
  | none => 0

/-- Duplicate elimination keeping first occurrences (the iteration order we
fix for the Python `set` of `all_nodes`, whose order is unspecified). -/
def dedupAux (seen : List String) : List String → List String
  | [] => []
  | x :: t => if seen.contains x then dedupAux seen t else x :: dedupAux (x :: seen) t

/-- Duplicate elimination keeping first occurrences. -/
def dedupKeepFirst (l : List String) : List String := dedupAux [] l

/-- Model of `DependencyAnalyzer._calculate_centrality`: every key scores
`2·in + out`; nodes appearing only as targets are appended with `2·in`. -/
def calcCentrality (g : Graph) : List (String × Nat) :=
  let base := g.map fun e => (e.1, 2 * inDegree g e.1 + e.2.length)
  let keys := g.map Prod.fst
  let allNodes := dedupKeepFirst (keys ++ (g.map Prod.snd).flatten)
  base ++ (allNodes.filter fun n => !(keys.contains n)).map fun n => (n, 2 * inDegree g n)

/-- Stable insertion (descending by score; an element inserted later goes
after existing elements with an equal score). -/
def insertDescByScore (x : String × Nat) : List (String × Nat) → List (String × Nat)
  | [] => [x]
  | y :: t => if x.2 > y.2 then x :: y :: t else y :: insertDescByScore x t

/-- Stable descending sort by score: the model of Python
`sorted(items, key=score, reverse=True)`, which is stable. -/
def sortByScoreDesc (l : List (String × Nat)) : List (String × Nat) :=
  l.foldl (fun acc x => insertDescByScore x acc) []

/-- Model of `DependencyAnalyzer._identify_important_files`. -/
def identifyImportantFiles (centrality : List (String × Nat)) : List String :=
  (sortByScoreDesc centrality).map Prod.fst

/-- Result record of `analyze_dependencies`. -/
structure DepAnalysis where
  graph : Graph
  centrality : List (String × Nat)
  importantFiles : List String
deriving DecidableEq

/-- Model of `DependencyAnalyzer.analyze_dependencies`. -/
def analyzeDependencies (raw : String → String → List String)
    (files : List SrcFile) : DepAnalysis :=
  let g := buildDependencyGraph raw files
  let c := calcCentrality g
  { graph := g, centrality := c, importantFiles := identifyImportantFiles c }

/-! ### Concrete matcher for the two Python import patterns

`^\s*import\s+(\w+(?:\.\w+)*)` and `^\s*from\s+(\w+(?:\.\w+)*)\s+import`
with `re.MULTILINE`, including non-overlapping left-to-right scanning as in
`re.finditer`.  The greedy quantifiers of these patterns are deterministic:
`\s*`/`\s+` end at the first non-space, the dotted name is maximal-munch,
and shorter alternatives can never continue (word characters, dots and
spaces are pairwise disjoint), so no backtracking search is needed. -/

/-- Python `\w` (ASCII). -/
def isPyWordChar (c : Char) : Bool := c.isAlpha || c.isDigit || c = '_'

/-- Greedy `(?:\.\w+)*` with fuel (each step consumes at least two
characters, so `fuel = length` suffices). -/
def dotParts : Nat → List Char → (List Char × List Char)
  | 0, l => ([], l)
  | f + 1, l =>
    match l with
    | '.' :: t =>
      let w := t.takeWhile isPyWordChar
      if w.isEmpty then ([], l)
      else
        let r := dotParts f (t.drop w.length)
        ('.' :: w ++ r.1, r.2)
    | _ => ([], l)

/-- Greedy `\w+(?:\.\w+)*`: the captured dotted name and the remainder. -/
def matchDottedName (l : List Char) : Option (List Char × List Char) :=
  let w := l.takeWhile isPyWordChar
  if w.isEmpty then none
  else
    let r := dotParts l.length (l.drop w.length)
    some (w ++ r.1, r.2)

/-- Model of `\s*import\s+(\w+(?:\.\w+)*)` at a `^` position. -/
def matchImportAt (l : List Char) : Option (List Char × List Char) :=
  let rest := l.drop (l.takeWhile isPySpace).length
  if "import".toList.isPrefixOf rest then
    let r2 := rest.drop 6
    let ws2 := r2.takeWhile isPySpace
    if ws2.isEmpty then none
    else matchDottedName (r2.drop ws2.length)
  else none

/-- Model of `\s*from\s+(\w+(?:\.\w+)*)\s+import` at a `^` position. -/
def matchFromAt (l : List Char) : Option (List Char × List Char) :=
  let rest := l.drop (l.takeWhile isPySpace).length
  if "from".toList.isPrefixOf rest then
    let r2 := rest.drop 4
    let ws2 := r2.takeWhile isPySpace
    if ws2.isEmpty then none
    else
      match matchDottedName (r2.drop ws2.length) with
      | none => none
      | some (name, r3) =>
        let ws3 := r3.takeWhile isPySpace
        if ws3.isEmpty then none
        else if "import".toList.isPrefixOf (r3.drop ws3.length) then
          some (name, (r3.drop ws3.length).drop 6)
        else none
  else none

/-- Model of `re.finditer` scan for a `^`-anchored pattern under `re.MULTILINE`:
try the matcher at the string start and after every newline, resuming after
each match end (both patterns end in a non-newline character, so a match
end is never a `^` position). -/
def scanAux (matchAt : List Char → Option (List Char × List Char)) :
    Nat → Bool → List Char → List (List Char)
  | 0, _, _ => []
  | _ + 1, _, [] => []
  | f + 1, atStart, c :: t =>
    if atStart then
      match matchAt (c :: t) with
      | some (g, rest) => g :: scanAux matchAt f false rest
      | none => scanAux matchAt f (c = '\n') t
    else scanAux matchAt f (c = '\n') t

/-- All captured groups of the two `.py` patterns of `import_patterns`, in
pattern order then scan order, as in `_extract_imports`. -/
def pyRawMatches (content : String) : List String :=
  let l := content.toList
  ((scanAux matchImportAt (l.length + 1) true l) ++
   (scanAux matchFromAt (l.length + 1) true l)).map String.mk

/-- Concrete instantiation of the abstract raw matcher implementing the
`.py` entries of `import_patterns`; used for concrete runs whose files are
all Python files (the other language families never fire on them). -/
def pyImportMatcher (ext content : String) : List String :=
  if ext == ".py" then pyRawMatches content else []

example :
    analyzeDependencies pyImportMatcher [("a.py", "import b"), ("b.py", "")] =
      { graph := [("a.py", ["b.py"])],
        centrality := [("a.py", 1), ("b.py", 2)],
        importantFiles := ["b.py", "a.py"] } := by decide

/-! ## CodeQuality sampler (`categories/code_quality.py`)

`_select_code_sample` and `_truncate_sample`.  Two aspects are abstracted:

* `random.sample(remaining_files, min(2, len(remaining_files)))` becomes a
  parameter `pick : List SrcFile → List SrcFile`; theorems quantify over
  every `pick` whose output is drawn from its input, which covers every
  possible random outcome;
* the token estimate `int(len(content) * TOKENS_PER_CHAR.get(lang, default))`
  is a parameter `est : String → String → Nat` (language, content ↦ tokens)
  in theorems, so they hold whatever values the source's floating-point
  products take; the concrete instantiation `tokensEstimate` computes the
  same products in exact rational arithmetic (`0.25 = 1/4`, `0.3 = 3/10`,
  `0.35 = 7/20`, `0.28 = 7/25`), as is `int((size/total)*remaining)`
  in the per-language allocation, modelled as `size * remaining / total`
  in exact arithmetic. -/

/-- Model of `CodeQuality.TOKENS_PER_CHAR` as exact rationals (numerator,
denominator). -/
def tokensPerChar : List (String × (Nat × Nat)) :=
  [ ("default", (1, 4)), ("py", (1, 4)), ("js", (3, 10)), ("jsx", (3, 10)),
    ("ts", (3, 10)), ("tsx", (3, 10)), ("rs", (7, 20)), ("sol", (7, 20)),
    ("cpp", (7, 20)), ("c", (3, 10)), ("java", (7, 20)), ("go", (7, 25)),
    ("rb", (1, 4)) ]

/-- Model of `CodeQuality.MAX_TOKENS`. -/
def maxTokens : Nat := 80000

/-- Model of `CodeQuality.MAX_LINES_PER_FILE`. -/
def maxLinesPerFile : Nat := 300

/-- Model of `int(len(content) * TOKENS_PER_CHAR.get(lang, TOKENS_PER_CHAR["default"]))`
in exact rational arithmetic. -/
def tokensEstimate (lang content : String) : Nat :=
  let r := match assocLookup tokensPerChar lang with
           | some q => q
           | none => (1, 4)
  content.toList.length * r.1 / r.2

/-- The `key_file_patterns` set of `_select_code_sample`. -/
def keyFilePatterns : List String :=
  [ "main", "index", "app", "server", "client", "core", "api", "model", "view",
    "controller", "component", "service", "utils", "helpers", "config",
    "settings", "constants", "types", "database", "storage", "auth", "user",
    "admin", "provider", "context", "hook", "state", "router", "route",
    "navigation", "validator", "parser", "formatter", "renderer" ]

/-- Model of `os.path.splitext(p)[0]`. -/
def splitextRoot (p : String) : String :=
  String.mk (p.toList.take (p.toList.length - (splitextExt p).toList.length))

/-- Model of `any(pattern in name_without_ext for pattern in key_file_patterns)`. -/
def isKeyFileName (path : String) : Bool :=
  let nm := strLower (splitextRoot (basename path))
  keyFilePatterns.any fun pat => containsStr nm pat

/-- The grouped-candidates dictionary: language ↦ files. -/
abbrev Grouped := List (String × List SrcFile)

/-- Append a file to its language bucket (`defaultdict(list)`). -/
def groupAdd (g : Grouped) (lang : String) (f : SrcFile) : Grouped :=
  match g with
  | [] => [(lang, [f])]
  | (k, fs) :: t => if k == lang then (k, fs ++ [f]) :: t else (k, fs) :: groupAdd t lang f

/-- Model of `CodeQuality._group_files_by_language`: bucket by lowered extension
without its dot; extension-less files are dropped. -/
def groupFilesByLanguage (codeFiles : List SrcFile) : Grouped :=
  codeFiles.foldl
    (fun acc f =>
      let ext := extLower f.1
      if ext ≠ "" then groupAdd acc (String.mk ext.toList.tail) f
      else acc)
    []

/-- The key-file collection loop of `_select_code_sample`:
`(path, content, lang)` triples. -/
def keyFiles (g : Grouped) : List (String × String × String) :=
  (g.map fun e => (e.2.filter fun f => isKeyFileName f.1).map fun f => (f.1, f.2, e.1)).flatten

/-- Stable insertion, descending by content size (a later element goes after
equal-sized earlier ones, as in Python's stable `sort(reverse=True)`). -/
def insertDescBySize (x : String × String × String) :
    List (String × String × String) → List (String × String × String)
  | [] => [x]
  | y :: t =>
    if x.2.1.toList.length > y.2.1.toList.length then x :: y :: t
    else y :: insertDescBySize x t

/-- Model of `key_files.sort(key=lambda x: len(x[1]), reverse=True)` (stable). -/
def sortKeyFilesDesc (l : List (String × String × String)) :
    List (String × String × String) :=
  l.foldl (fun acc x => insertDescBySize x acc) []

/-- Stable insertion, ascending by content size. -/
def insertAscBySize (x : SrcFile) : List SrcFile → List SrcFile
  | [] => [x]
  | y :: t =>
    if x.2.toList.length < y.2.toList.length then x :: y :: t
    else y :: insertAscBySize x t

/-- Model of `sorted(files, key=lambda x: len(x[1]))` (stable). -/
def sortFilesAsc (l : List SrcFile) : List SrcFile :=
  l.foldl (fun acc x => insertAscBySize x acc) []

/-- Model of `grouped_files[lang] = [(p, c) for p, c in grouped_files[lang] if p != path]`. -/
def groupRemovePath (g : Grouped) (lang path : String) : Grouped :=
  g.map fun e => if e.1 == lang then (e.1, e.2.filter fun f => f.1 ≠ path) else e

/-- The key-file pass of `_select_code_sample`: state is
`(sample, total_tokens, grouped_files)`. -/
def pass1 (est : String → String → Nat) :
    List (String × String × String) → (List SrcFile × Nat × Grouped) →
    (List SrcFile × Nat × Grouped)
  | [], st => st
  | (p, c, lang) :: rest, (sample, total, g) =>
    let t := est lang c
    if total + t ≤ maxTokens then
      pass1 est rest (sample ++ [(p, c)], total + t, groupRemovePath g lang p)
    else pass1 est rest (sample, total, g)

/-- Key-file pass applied to the five largest key files. -/
def pass1Result (est : String → String → Nat) (g : Grouped) :
    List SrcFile × Nat × Grouped :=
  pass1 est ((sortKeyFilesDesc (keyFiles g)).take 5) ([], 0, g)

/-- Model of `sum(len(content) for _, content in files)`. -/
def groupSize (fs : List SrcFile) : Nat :=
  (fs.map fun f => f.2.toList.length).sum

/-- Model of `total_size` over all language buckets. -/
def totalSizeOf (g : Grouped) : Nat :=
  (g.map fun e => groupSize e.2).sum

/-- One step of the per-language greedy budget loop of
`_select_code_sample`. -/
def greedyStep (est : String → String → Nat) (lang : String) (alloc : Nat)
    (st : List SrcFile × Nat) (f : SrcFile) : List SrcFile × Nat :=
  let t := est lang f.2
  if st.2 + t ≤ alloc then (st.1 ++ [f], st.2 + t) else st

/-- The per-language greedy budget loop of `_select_code_sample`. -/
def greedyTake (est : String → String → Nat) (lang : String) (alloc : Nat)
    (l : List SrcFile) : List SrcFile × Nat :=
  l.foldl (greedyStep est lang alloc) ([], 0)

/-- The size-diverse per-language sample of `_select_code_sample`:
everything for up to three files, otherwise smallest/median/largest plus
the picked extras. -/
def langSampleOf (pick : List SrcFile → List SrcFile) (sorted : List SrcFile) :
    List SrcFile :=
  if sorted.length ≤ 3 then sorted
  else
    let d : SrcFile := ("", "")
    let base := [sorted.getD 0 d, sorted.getD (sorted.length / 2) d,
                 sorted.getD (sorted.length - 1) d]
    let remFiles := sorted.filter fun f => !(base.contains f)
    if !remFiles.isEmpty && base.length < 5 then base ++ pick remFiles else base

/-- The per-language selection of `_select_code_sample`: allocation
`int((size/total_size)*total_remaining)` (exact arithmetic), size-diverse
sample, then the greedy per-language budget guard.  Returns the selected
files and their token count. -/
def pass2lang (est : String → String → Nat) (pick : List SrcFile → List SrcFile)
    (remaining totalSize : Nat) (lang : String) (fs : List SrcFile) :
    List SrcFile × Nat :=
  let alloc := if totalSize > 0 then groupSize fs * remaining / totalSize else 0
  if alloc = 0 then ([], 0)
  else greedyTake est lang alloc (langSampleOf pick (sortFilesAsc fs))

/-- The sample produced by the two budget passes, before the fallback. -/
def selectMainOf (est : String → String → Nat) (pick : List SrcFile → List SrcFile)
    (g : Grouped) : List SrcFile :=
  let r := pass1Result est g
  let remaining := maxTokens - r.2.1
  let ts := totalSizeOf r.2.2
  r.1 ++ (r.2.2.map fun e => (pass2lang est pick remaining ts e.1 e.2).1).flatten

/-- Model of `min(files, key=lambda x: len(x[1]))` — first minimal element. -/
def minBySize (fs : List SrcFile) : SrcFile :=
  match fs with
  | [] => ("", "")
  | f :: t => t.foldl (fun m x => if x.2.toList.length < m.2.toList.length then x else m) f

/-- The fallback loop of `_select_code_sample`: the smallest file of the
first language bucket that still has files. -/
def fallbackPick (g : Grouped) : List SrcFile :=
  match g.find? (fun e => !e.2.isEmpty) with
  | some e => [minBySize e.2]
  | none => []

/-- Model of `CodeQuality._select_code_sample`. -/
def selectCodeSample (est : String → String → Nat)
    (pick : List SrcFile → List SrcFile) (g : Grouped) : List SrcFile :=
  let main := selectMainOf est pick g
  let g1 := (pass1Result est g).2.2
  if main.isEmpty && !g1.isEmpty then fallbackPick g1 else main

/-- A concrete admissible model of
`random.sample(remaining_files, min(2, len(remaining_files)))`: the first
`min(2, len)` elements, one possible outcome of the sampler. -/
def pickTake2 (l : List SrcFile) : List SrcFile := l.take 2

example :
    selectCodeSample tokensEstimate pickTake2 (groupFilesByLanguage [("a.py", "xyz")])
      = [("a.py", "xyz")] := by decide

/-! ### Truncation (`_truncate_sample`)

Content is modelled with `\n` newlines only (the marker lines the source
inserts use `\n`), so Python `str.splitlines` is splitting on `\n` with a
single trailing newline not producing an empty final line. -/

/-- Python `str.splitlines` for `\n`-terminated text. -/
def splitlinesLC (l : List Char) : List (List Char) :=
  if l.isEmpty then []
  else if l.getLast? = some '\n' then (splitOnChar '\n' l).dropLast
  else splitOnChar '\n' l

/-- The truncation of one file's content in `_truncate_sample`: first third,
middle slice and last third of the lines joined with explicit truncation
markers; content with at most `MAX_LINES_PER_FILE` lines is unchanged. -/
def truncateContent (content : String) : String :=
  let lines := splitlinesLC content.toList
  let n := lines.length
  if n > maxLinesPerFile then
    let firstChunk := lines.take (maxLinesPerFile / 3)
    let lastChunk := lines.drop (n - maxLinesPerFile / 3)
    let middleStart := n / 2 - maxLinesPerFile / 6
    let middleChunk := (lines.drop middleStart).take (maxLinesPerFile / 3)
    String.mk (joinWith ['\n'] firstChunk
      ++ "\n\n// ... [Truncated ".toList
      ++ (Nat.repr (n - maxLinesPerFile)).toList
      ++ " lines] ...\n\n".toList
      ++ joinWith ['\n'] middleChunk
      ++ "\n\n// ... [Truncated] ...\n\n".toList
      ++ joinWith ['\n'] lastChunk)
  else content

/-- Model of `CodeQuality._truncate_sample`. -/
def truncateSample (sample : List SrcFile) : List SrcFile :=
  sample.map fun f => (f.1, truncateContent f.2)

example : truncateContent "a\nb\nc" = "a\nb\nc" := by decide

/-! ## RepoAnalyzer (`repo_analyzer.py`)

`analyze` and `_create_file_summary`, restricted to the fields the source
derives from the components modelled above.  Fields obtained from the Git
analyzer, the boilerplate `detect` aggregate and the AST analyzer
(`git_analysis`, `boilerplate_analysis`, `ast_analysis`, `technologies`,
`code_metrics`, the float `custom_percentage`, and `summary`) are omitted:
they are produced by components outside the claims under verification and
do not influence the modelled fields.  The downstream steps themselves are
parameters of `repoAnalyzeWith`, so that theorems about the empty-repository
short-circuit hold whatever those steps compute. -/

/-- The modelled fields of a per-category file summary
(`_create_file_summary`). -/
structure CatSummary where
  fileCount : Nat
  importantFiles : List String
  boilerplateCount : Nat
  thirdPartyCount : Nat
  customCount : Nat
deriving DecidableEq

/-- Model of `RepoAnalyzer._create_file_summary` (modelled fields). -/
def createFileSummary (categoryFiles : List SrcFile) (dep : DepAnalysis) : CatSummary :=
  let filePaths := categoryFiles.map Prod.fst
  let catCentrality := filePaths.map fun p => (p, (assocLookup dep.centrality p).getD 0)
  let sortedFiles := sortByScoreDesc catCentrality
  let classes := categoryFiles.map fun f => getFileClassification f.1 f.2
  { fileCount := categoryFiles.length
    importantFiles := (sortedFiles.take 10).map Prod.fst
    boilerplateCount := (classes.filter fun c => c == "boilerplate").length
    thirdPartyCount := (classes.filter fun c => c == "third-party").length
    customCount := (classes.filter fun c => c == "custom").length }

/-- The result of `RepoAnalyzer.analyze` (modelled fields): either the
empty-repository short-circuit dictionary or the full result. -/
inductive RepoAnalysis where
  | emptyRepo (error : String) (fileCount : Nat) : RepoAnalysis
  | full (fileCount : Nat) (categorized : List (String × List String))
      (depImportant : List String)
      (fileSummaries : List (String × CatSummary)) : RepoAnalysis
deriving DecidableEq

/-- Model of `RepoAnalyzer.analyze` with the downstream steps as parameters: the
empty check happens before any downstream step runs. -/
def repoAnalyzeWith
    (categorizer : List SrcFile → List (String × List SrcFile))
    (depAnalyzer : List SrcFile → DepAnalysis)
    (summarizer : List SrcFile → DepAnalysis → CatSummary)
    (files : List SrcFile) : RepoAnalysis :=
  if files.isEmpty then .emptyRepo "Repository is empty" 0
  else
    let categorized := categorizer files
    let dep := depAnalyzer files
    .full files.length
      (categorized.map fun e => (e.1, e.2.map Prod.fst))
      (dep.importantFiles.take 20)
      ((categorized.filter fun e => !e.2.isEmpty).map fun e =>
        (e.1, summarizer e.2 dep))

/-- Model of `RepoAnalyzer.analyze` with the concrete downstream components. -/
def repoAnalyze (raw : String → String → List String) (files : List SrcFile) :
    RepoAnalysis :=
  repoAnalyzeWith categorizeFiles (analyzeDependencies raw)
    createFileSummary files

/-- The `dependency_analysis.important_files` field of the result. -/
def depImportantOf : RepoAnalysis → List String
  | .emptyRepo _ _ => []
  | .full _ _ d _ => d

/-- The `file_summaries` field of the result. -/
def fileSummariesOf : RepoAnalysis → List (String × CatSummary)
  | .emptyRepo _ _ => []
  | .full _ _ _ s => s

/-! ## Claim theorems -/

/-- Claim C2. On the input `[("a.py", "import b"), ("b.py", "")]`,
`analyze_dependencies` produces the graph `a.py ↦ {b.py}`, centrality
scores `b.py = 2` and `a.py = 1`, and the important-files list
`[b.py, a.py]` in that order. -/
theorem c2_scenario_a :
    analyzeDependencies pyImportMatcher [("a.py", "import b"), ("b.py", "")] =
      { graph := [("a.py", ["b.py"])],
        centrality := [("a.py", 1), ("b.py", 2)],
        importantFiles := ["b.py", "a.py"] } := by decide

/-- Claim C3. `get_file_classification` always returns exactly one of the
three labels; the boilerplate check precedes the third-party check, and a
file matching both is labeled boilerplate. -/
theorem c3_classification_exhaustive (p c : String) :
    (getFileClassification p c = "boilerplate" ∨
     getFileClassification p c = "third-party" ∨
     getFileClassification p c = "custom") ∧
    (isBoilerplateFile p c = true → getFileClassification p c = "boilerplate") ∧
    (isBoilerplateFile p c = false → isThirdPartyFile p = true →
      getFileClassification p c = "third-party") ∧
    (isBoilerplateFile p c = false → isThirdPartyFile p = false →
      getFileClassification p c = "custom") := by
  unfold getFileClassification
  by_cases hb : isBoilerplateFile p c <;> by_cases ht : isThirdPartyFile p <;>
    simp [hb, ht]

/-- Witness for C3 at a path lying both under a boilerplate pattern and a
third-party directory: it is classified boilerplate. -/
theorem c3_classification_witness :
    getFileClassification "vendor/tsconfig.json" "" = "boilerplate" :=
  (c3_classification_exhaustive "vendor/tsconfig.json" "").2.1 (by decide)

/-- Claim C9. With an empty file list, `analyze` returns the
empty-repository result — independently of (hence without running) the
categorization, dependency-analysis and summary steps, and without
raising (the function is total). -/
theorem c9_empty_repository
    (categorizer : List SrcFile → List (String × List SrcFile))
    (depAnalyzer : List SrcFile → DepAnalysis)
    (summarizer : List SrcFile → DepAnalysis → CatSummary) :
    repoAnalyzeWith categorizer depAnalyzer summarizer [] =
      RepoAnalysis.emptyRepo "Repository is empty" 0 := rfl

/-- A file of 301 one-character lines: one line over the truncation cap. -/
def overCapContent : String :=
  String.mk (joinWith ['\n'] (List.replicate 301 ['x']))

set_option maxRecDepth 100000 in
/-- Claim C8 counterexample. Truncating an already-truncated file a second
time is not a no-op: truncated output has `3·(300/3) + 6 = 306` lines,
which itself exceeds the 300-line cap, so a second pass rewrites the first
truncation-marker line (`[Truncated 1 lines]` becomes
`[Truncated 6 lines]`). -/
theorem c8_truncation_counterexample :
    truncateSample (truncateSample [("f.py", overCapContent)]) ≠
      truncateSample [("f.py", overCapContent)] := by decide

/-- Claim C8 (amended). Truncation is a no-op exactly on content within the
line cap: `_truncate_sample` leaves every file whose line count does not
exceed `MAX_LINES_PER_FILE` unchanged.  (It is not idempotent on longer
files: their truncated form has 306 lines, above the cap, so a second pass
changes the truncation-marker line again.) -/
theorem c8_truncation_noop_within_cap (sample : List SrcFile)
    (h : ∀ f ∈ sample, (splitlinesLC f.2.toList).length ≤ maxLinesPerFile) :
    truncateSample sample = sample := by
  unfold truncateSample
  induction sample with
  | nil => rfl
  | cons f t ih =>
    have hf := h f (List.mem_cons_self f t)
    have hlt : ¬ ((splitlinesLC f.2.toList).length > maxLinesPerFile) :=
      Nat.not_lt.mpr hf
    have ht : ∀ g ∈ t, (splitlinesLC g.2.toList).length ≤ maxLinesPerFile :=
      fun g hg => h g (List.mem_cons_of_mem f hg)
    simp only [List.map_cons, ih ht]
    congr 1
    rw [truncateContent, if_neg hlt]

/-- Witness for C8 (amended): a three-line file passes through truncation
unchanged. -/
theorem c8_truncation_noop_witness :
    truncateSample [("f.py", "a\nb\nc")] = [("f.py", "a\nb\nc")] :=
  c8_truncation_noop_within_cap [("f.py", "a\nb\nc")] (by decide)

/-- The five pattern-based categories with their pattern dictionaries (the
two pseudo-categories take all files, resp. the name/path special case). -/
def patternCategories : List (String × CategoryPatterns) :=
  [ ("near_protocol_integration", nearIntegrationPatterns),
    ("onchain_quality", onchainQualityPatterns),
    ("offchain_quality", offchainQualityPatterns),
    ("code_quality_documentation", codeQualityDocumentationPatterns),
    ("technical_innovation", technicalInnovationPatterns) ]

/-- Claim C5 counterexample. A file named `LICENSE` has the empty extension,
which is in no category's extension set, yet `categorize_files` assigns it
to `code_quality_documentation` through the filename list — the filename
check of `_matches_category` sits outside the extension gate. -/
theorem c5_extension_counterexample :
    ("LICENSE", "") ∈ catLookup (categorizeFiles [("LICENSE", "")])
        "code_quality_documentation" ∧
    extLower "LICENSE" ∉ codeQualityDocumentationPatterns.extensions := by decide

/-- A `_matches_category` match needs the extension in the allowed set or
the basename in the filename list. -/
theorem matchesCategory_ext_or_filename (p nm ext c : String)
    (pat : CategoryPatterns) (h : matchesCategory p nm ext c pat = true) :
    ext ∈ pat.extensions ∨ nm ∈ pat.filenames := by
  unfold matchesCategory at h
  simp only [Bool.or_eq_true, Bool.and_eq_true] at h
  rcases h with ⟨hext, _⟩ | hfn
  · exact Or.inl (by simpa using hext)
  · exact Or.inr (by simpa using hfn)

/-- Claim C5 (amended). For the five pattern-based categories, the extension
gate covers only the path-pattern and content-pattern checks: a file is
assigned to such a category only if its extension is in the category's
allowed set **or** its basename is in the category's explicit filename
list.  (The team-activity pseudo-category takes every file and the
grant-impact special case uses its own name/path rule; both ignore
extensions.) -/
theorem c5_extension_gate_amended (files : List SrcFile) (cat : String)
    (pat : CategoryPatterns) (f : SrcFile)
    (hcat : (cat, pat) ∈ patternCategories)
    (hf : f ∈ catLookup (categorizeFiles files) cat) :
    extLower f.1 ∈ pat.extensions ∨ basename f.1 ∈ pat.filenames := by
  have hmc : matchesCategoryFile f pat = true := by
    simp only [patternCategories, List.mem_cons, List.not_mem_nil, or_false,
      Prod.mk.injEq] at hcat
    rcases hcat with ⟨hc, hp⟩ | ⟨hc, hp⟩ | ⟨hc, hp⟩ | ⟨hc, hp⟩ | ⟨hc, hp⟩ <;>
        subst hc <;> subst hp
    · exact (List.mem_filter.mp hf).2
    · exact (List.mem_filter.mp hf).2
    · have h2 := (List.mem_filter.mp hf).2
      rw [Bool.and_eq_true] at h2
      exact h2.1
    · exact (List.mem_filter.mp hf).2
    · have h2 := (List.mem_filter.mp hf).2
      rw [Bool.and_eq_true] at h2
      exact h2.1
  exact matchesCategory_ext_or_filename f.1 (basename f.1) (extLower f.1) f.2 pat hmc

/-- Witness for C5 (amended) at a contract file assigned to the
near-integration category: its extension is in the allowed set. -/
theorem c5_extension_gate_witness :
    extLower "contracts/main.rs" ∈ nearIntegrationPatterns.extensions ∨
      basename "contracts/main.rs" ∈ nearIntegrationPatterns.filenames :=
  c5_extension_gate_amended [("contracts/main.rs", "")]
    "near_protocol_integration" nearIntegrationPatterns ("contracts/main.rs", "")
    (List.Mem.head _) (by decide)

/-! ### Centrality lemmas (C4) -/

/-- With duplicate-free keys (a dict), `find?` by key returns the entry. -/
lemma find?_eq_some_of_keys_nodup (g : Graph) (hk : (g.map Prod.fst).Nodup)
    (e : String × List String) (he : e ∈ g) :
    g.find? (fun x => x.1 == e.1) = some e := by
  induction g with
  | nil => cases he
  | cons x t ih =>
    rw [List.map_cons, List.nodup_cons] at hk
    rcases List.mem_cons.mp he with rfl | ht
    · simp [List.find?]
    · have hx : ¬ (x.1 == e.1) = true := by
        intro hEq
        exact hk.1 ((beq_iff_eq.mp hEq) ▸ List.mem_map_of_mem Prod.fst ht)
      rw [List.find?_cons_of_neg _ (by simpa using hx)]
      exact ih hk.2 ht

/-- Model of `find?` by a key absent from the key list returns nothing. -/
lemma find?_eq_none_of_not_mem_keys (g : Graph) (n : String)
    (h : n ∉ g.map Prod.fst) : g.find? (fun x => x.1 == n) = none := by
  induction g with
  | nil => rfl
  | cons x t ih =>
    rw [List.map_cons, List.mem_cons] at h
    push_neg at h
    rw [List.find?_cons_of_neg _ (by simpa using fun hEq => h.1 hEq.symm)]
    exact ih h.2

/-- Model of `outDegree` of a key with duplicate-free keys. -/
lemma outDegree_eq_of_mem (g : Graph) (hk : (g.map Prod.fst).Nodup)
    (e : String × List String) (he : e ∈ g) : outDegree g e.1 = e.2.length := by
  unfold outDegree
  rw [find?_eq_some_of_keys_nodup g hk e he]

/-- Model of `outDegree` of a non-key is zero. -/
lemma outDegree_eq_zero_of_not_mem (g : Graph) (n : String)
    (h : n ∉ g.map Prod.fst) : outDegree g n = 0 := by
  unfold outDegree
  rw [find?_eq_none_of_not_mem_keys g n h]

/-- Every centrality entry scores `2·in + out`. -/
lemma calcCentrality_score (g : Graph) (hk : (g.map Prod.fst).Nodup)
    (n : String) (s : Nat) (h : (n, s) ∈ calcCentrality g) :
    s = 2 * inDegree g n + outDegree g n := by
  unfold calcCentrality at h
  rcases List.mem_append.mp h with hb | he
  · rcases List.mem_map.mp hb with ⟨e, heg, hEq⟩
    rw [Prod.mk.injEq] at hEq
    obtain ⟨h1, h2⟩ := hEq
    subst h1
    rw [← h2, outDegree_eq_of_mem g hk e heg]
  · rcases List.mem_map.mp he with ⟨m, hm, hEq⟩
    rw [Prod.mk.injEq] at hEq
    obtain ⟨h1, h2⟩ := hEq
    subst h1
    have hnk : m ∉ g.map Prod.fst := by
      have := (List.mem_filter.mp hm).2
      simpa using this
    rw [← h2, outDegree_eq_zero_of_not_mem g m hnk, Nat.add_zero]

/-- Adding an edge `a → b` never decreases any in-degree. -/
lemma inDegree_le_addEdge (g : Graph) (a b n : String) :
    inDegree g n ≤ inDegree (addEdge g a b) n := by
  induction g with
  | nil => exact Nat.zero_le _
  | cons x t ih =>
    obtain ⟨k, ts⟩ := x
    unfold addEdge
    by_cases hk : (k == a) = true
    · rw [if_pos hk]
      unfold inDegree
      rw [List.countP_cons, List.countP_cons]
      apply Nat.add_le_add_left
      by_cases hc : ts.contains n = true
      · have hmem : n ∈ ts := by simpa using hc
        have hmem' : n ∈ (if ts.contains b then ts else ts ++ [b]) := by
          split
          · exact hmem
          · exact List.mem_append_left _ hmem
        have hc' : (if ts.contains b then ts else ts ++ [b]).contains n = true := by
          simpa using hmem'
        rw [if_pos hc, if_pos hc']
      · rw [if_neg hc]
        exact Nat.zero_le _
    · rw [if_neg hk]
      unfold inDegree
      rw [List.countP_cons, List.countP_cons]
      exact Nat.add_le_add_right ih _

/-- Adding an edge `a → b` never decreases any out-degree. -/
lemma outDegree_le_addEdge (g : Graph) (a b n : String) :
    outDegree g n ≤ outDegree (addEdge g a b) n := by
  induction g with
  | nil => exact Nat.zero_le _
  | cons x t ih =>
    obtain ⟨k, ts⟩ := x
    unfold addEdge
    by_cases hk : (k == a) = true
    · rw [if_pos hk]
      unfold outDegree
      by_cases hn : (k == n) = true
      · rw [List.find?_cons_of_pos _ (by simpa using hn),
          List.find?_cons_of_pos _ (by simpa using hn)]
        show ts.length ≤ (if ts.contains b then ts else ts ++ [b]).length
        split
        · exact le_refl _
        · rw [List.length_append]
          exact Nat.le_add_right _ _
      · rw [List.find?_cons_of_neg _ (by simpa using hn),
          List.find?_cons_of_neg _ (by simpa using hn)]
    · rw [if_neg hk]
      unfold outDegree
      by_cases hn : (k == n) = true
      · rw [List.find?_cons_of_pos _ (by simpa using hn),
          List.find?_cons_of_pos _ (by simpa using hn)]
      · rw [List.find?_cons_of_neg _ (by simpa using hn),
          List.find?_cons_of_neg _ (by simpa using hn)]
        exact ih

/-- Claim C4. On any dependency graph (a dict: duplicate-free keys), every
centrality entry equals `2·in_degree + out_degree`; consequently adding an
incoming edge to a node never decreases that node's score, and a node with
in-degree 0 and out-degree 0 has centrality 0. -/
theorem c4_centrality_properties (g : Graph) (hk : (g.map Prod.fst).Nodup) :
    (∀ n s, (n, s) ∈ calcCentrality g → s = 2 * inDegree g n + outDegree g n) ∧
    (∀ a b, 2 * inDegree g b + outDegree g b ≤
      2 * inDegree (addEdge g a b) b + outDegree (addEdge g a b) b) ∧
    (∀ n s, (n, s) ∈ calcCentrality g → inDegree g n = 0 → outDegree g n = 0 →
      s = 0) := by
  refine ⟨calcCentrality_score g hk, ?_, ?_⟩
  · intro a b
    exact Nat.add_le_add
      (Nat.mul_le_mul_left 2 (inDegree_le_addEdge g a b b))
      (outDegree_le_addEdge g a b b)
  · intro n s h hin hout
    rw [calcCentrality_score g hk n s h, hin, hout]

/-- Witness for C4 on the one-edge graph `a.py → b.py`. -/
theorem c4_centrality_witness :
    (∀ n s, (n, s) ∈ calcCentrality [("a.py", ["b.py"])] →
      s = 2 * inDegree [("a.py", ["b.py"])] n + outDegree [("a.py", ["b.py"])] n) ∧
    (∀ a b, 2 * inDegree [("a.py", ["b.py"])] b + outDegree [("a.py", ["b.py"])] b ≤
      2 * inDegree (addEdge [("a.py", ["b.py"])] a b) b +
        outDegree (addEdge [("a.py", ["b.py"])] a b) b) ∧
    (∀ n s, (n, s) ∈ calcCentrality [("a.py", ["b.py"])] →
      inDegree [("a.py", ["b.py"])] n = 0 →
      outDegree [("a.py", ["b.py"])] n = 0 → s = 0) :=
  c4_centrality_properties [("a.py", ["b.py"])] (by decide)

/-! ### Graph-soundness lemmas (C1) -/

/-- A successful `assocLookup` yields a stored value. -/
lemma assocLookup_mem_values {α : Type} (l : List (String × α)) (k : String)
    (v : α) (h : assocLookup l k = some v) : v ∈ l.map Prod.snd := by
  unfold assocLookup at h
  cases hf : l.find? (fun e => e.1 == k) with
  | none => rw [hf] at h; cases h
  | some e =>
    rw [hf] at h
    have he : e.2 = v := by
      simpa using h
    exact he ▸ List.mem_map_of_mem Prod.snd (List.mem_of_find?_eq_some hf)

/-- A successful `firstHit` yields a stored value. -/
lemma firstHit_mem_values (fbm : List (String × String)) (cands : List String)
    (v : String) (h : firstHit fbm cands = some v) : v ∈ fbm.map Prod.snd := by
  induction cands with
  | nil => cases h
  | cons c t ih =>
    unfold firstHit at h
    cases hl : assocLookup fbm c with
    | some f =>
      rw [hl] at h
      cases h
      exact assocLookup_mem_values fbm c v hl
    | none =>
      rw [hl] at h
      exact ih h

/-- A successful relative resolution yields a stored value. -/
lemma resolveRelative_mem_values (imported importing : String)
    (fbm : List (String × String)) (v : String)
    (h : resolveRelative imported importing fbm = some v) :
    v ∈ fbm.map Prod.snd := by
  unfold resolveRelative at h
  split at h
  · dsimp only at h
    split at h
    · cases h
      exact assocLookup_mem_values _ _ _ (by assumption)
    · split at h
      · cases h
        exact firstHit_mem_values _ _ _ (by assumption)
      · exact firstHit_mem_values _ _ _ h
  · cases h

/-- A successful dotted resolution yields a stored value. -/
lemma resolveDotted_mem_values (imported : String)
    (fbm : List (String × String)) (v : String)
    (h : resolveDotted imported fbm = some v) : v ∈ fbm.map Prod.snd := by
  unfold resolveDotted at h
  split at h
  · dsimp only at h
    split at h
    · cases h
      exact assocLookup_mem_values _ _ _ (by assumption)
    · exact assocLookup_mem_values _ _ _ h
  · cases h

/-- Every non-empty result of `_resolve_import` is a value of the module
index. -/
lemma resolveImport_mem_values (imported importing : String)
    (fbm : List (String × String)) (b : String)
    (h : resolveImport imported importing fbm = b) (hb : b ≠ "") :
    b ∈ fbm.map Prod.snd := by
  unfold resolveImport at h
  split at h
  · exact h ▸ assocLookup_mem_values _ _ _ (by assumption)
  · split at h
    · exact h ▸ resolveRelative_mem_values _ _ _ _ (by assumption)
    · split at h
      · exact h ▸ resolveDotted_mem_values _ _ _ (by assumption)
      · exact absurd h.symm hb

/-- Membership after a dictionary assignment. -/
lemma assocSet_mem (l : List (String × String)) (k v : String) :
    ∀ e ∈ assocSet l k v, e ∈ l ∨ e = (k, v) := by
  induction l with
  | nil =>
    intro e he
    unfold assocSet at he
    rcases List.mem_singleton.mp he with rfl
    exact Or.inr rfl
  | cons x t ih =>
    intro e he
    unfold assocSet at he
    split at he
    · rcases List.mem_cons.mp he with rfl | ht
      · exact Or.inr rfl
      · exact Or.inl (List.mem_cons_of_mem x ht)
    · rcases List.mem_cons.mp he with rfl | ht
      · exact Or.inl (List.mem_cons_self _ _)
      · rcases ih e ht with h1 | h2
        · exact Or.inl (List.mem_cons_of_mem x h1)
        · exact Or.inr h2

/-- Every value of the module index is a path of the input file list. -/
lemma buildFileByModule_values (files : List SrcFile) :
    ∀ e ∈ buildFileByModule files, e.2 ∈ files.map Prod.fst := by
  unfold buildFileByModule
  suffices hgen : ∀ (l : List SrcFile) (acc : List (String × String)),
      (∀ e ∈ acc, e.2 ∈ files.map Prod.fst) →
      (∀ f ∈ l, f.1 ∈ files.map Prod.fst) →
      ∀ e ∈ l.foldl
        (fun acc f => assocSet acc (extractModuleName f.1 (extLower f.1)) f.1) acc,
        e.2 ∈ files.map Prod.fst by
    exact hgen files [] (fun e he => absurd he (List.not_mem_nil e))
      (fun f hf => List.mem_map_of_mem Prod.fst hf)
  intro l
  induction l with
  | nil => intro acc hacc _ e he; exact hacc e he
  | cons f t ih =>
    intro acc hacc hl e he
    rw [List.foldl_cons] at he
    refine ih _ ?_ (fun f' hf' => hl f' (List.mem_cons_of_mem f hf')) e he
    intro e' he'
    rcases assocSet_mem acc _ _ e' he' with h1 | h2
    · exact hacc e' h1
    · rw [h2]
      exact hl f (List.mem_cons_self f t)

/-- An edge of `addEdge g x y` is an edge of `g` or the new pair. -/
lemma edgeMem_addEdge (g : Graph) (x y a b : String)
    (h : edgeMem (addEdge g x y) a b = true) :
    edgeMem g a b = true ∨ (a = x ∧ b = y) := by
  induction g with
  | nil =>
    unfold addEdge edgeMem at h
    simp only [List.any_cons, List.any_nil, Bool.or_false, Bool.and_eq_true,
      beq_iff_eq] at h
    right
    refine ⟨h.1.symm, ?_⟩
    have : b ∈ [y] := by simpa using h.2
    simpa using this
  | cons e t ih =>
    obtain ⟨k, ts⟩ := e
    unfold addEdge at h
    split at h
    · -- k == x : head updated in place
      rename_i hkx
      unfold edgeMem at h ⊢
      simp only [List.any_cons, Bool.or_eq_true, Bool.and_eq_true, beq_iff_eq] at h ⊢
      rcases h with ⟨hka, hcont⟩ | htail
      · by_cases hy : ts.contains y = true
        · rw [if_pos hy] at hcont
          exact Or.inl (Or.inl ⟨hka, hcont⟩)
        · rw [if_neg hy] at hcont
          have : b ∈ ts ++ [y] := by simpa using hcont
          rcases List.mem_append.mp this with hin | hsing
          · exact Or.inl (Or.inl ⟨hka, by simpa using hin⟩)
          · right
            exact ⟨hka ▸ beq_iff_eq.mp hkx, by simpa using hsing⟩
      · exact Or.inl (Or.inr htail)
    · -- head untouched, recurse
      unfold edgeMem at h ⊢
      simp only [List.any_cons, Bool.or_eq_true] at h ⊢
      rcases h with hhead | htail
      · exact Or.inl (Or.inl hhead)
      · rcases ih htail with h1 | h2
        · exact Or.inl (Or.inr h1)
        · exact Or.inr h2

/-- An edge after `addImportEdges` is an old edge or comes from a resolved,
non-empty import of the processed file. -/
lemma addImportEdges_edge (fbm : List (String × String)) (p : String) :
    ∀ (imports : List String) (g : Graph) (a b : String),
      edgeMem (addImportEdges fbm p g imports) a b = true →
      edgeMem g a b = true ∨
        (a = p ∧ ∃ m ∈ imports, resolveImport m p fbm = b ∧ b ≠ "") := by
  intro imports
  induction imports with
  | nil => intro g a b h; exact Or.inl h
  | cons m ms ih =>
    intro g a b h
    unfold addImportEdges at h ih
    rw [List.foldl_cons] at h
    rcases ih _ a b h with hg | ⟨rfl, m', hm', hres, hb⟩
    · by_cases ht : resolveImport m p fbm ≠ ""
      · rw [if_pos ht] at hg
        rcases edgeMem_addEdge g p _ a b hg with h1 | ⟨rfl, rfl⟩
        · exact Or.inl h1
        · exact Or.inr ⟨rfl, m, List.mem_cons_self m ms, rfl, ht⟩
      · rw [if_neg ht] at hg
        exact Or.inl hg
    · exact Or.inr ⟨rfl, m', List.mem_cons_of_mem m hm', hres, hb⟩

/-- An edge after a file's step comes from an old edge or an import of that
file. -/
lemma addFileEdges_edge (raw : String → String → List String)
    (fbm : List (String × String)) (g : Graph) (f : SrcFile) (a b : String)
    (h : edgeMem (addFileEdges raw fbm g f) a b = true) :
    edgeMem g a b = true ∨
      (f.1 = a ∧ ∃ m ∈ extractImports raw f.2 (extLower f.1),
        resolveImport m a fbm = b ∧ b ≠ "") := by
  unfold addFileEdges at h
  dsimp only at h
  split at h
  · rcases addImportEdges_edge fbm f.1 _ g a b h with h1 | ⟨rfl, m, hm, hres, hb⟩
    · exact Or.inl h1
    · exact Or.inr ⟨rfl, m, hm, hres, hb⟩
  · exact Or.inl h

/-- An edge of the built graph comes from some input file's import. -/
lemma buildLoop_edge (raw : String → String → List String)
    (fbm : List (String × String)) :
    ∀ (l : List SrcFile) (g : Graph) (a b : String),
      edgeMem (l.foldl (addFileEdges raw fbm) g) a b = true →
      edgeMem g a b = true ∨
        ∃ f ∈ l, f.1 = a ∧ ∃ m ∈ extractImports raw f.2 (extLower f.1),
          resolveImport m a fbm = b ∧ b ≠ "" := by
  intro l
  induction l with
  | nil => intro g a b h; exact Or.inl h
  | cons f t ih =>
    intro g a b h
    rw [List.foldl_cons] at h
    rcases ih _ a b h with hg | ⟨f', hf', hfa, m, hm, hres, hb⟩
    · rcases addFileEdges_edge raw fbm g f a b hg with h1 | ⟨hfa, m, hm, hres, hb⟩
      · exact Or.inl h1
      · exact Or.inr ⟨f, List.mem_cons_self f t, hfa, m, hm, hres, hb⟩
    · exact Or.inr ⟨f', List.mem_cons_of_mem f hf', hfa, m, hm, hres, hb⟩

/-- Claim C1. Graph soundness, for every raw regex-match family: every edge
`(a, b)` of the built graph has `b` among the input paths; the edge arises
from an extracted import of `a`'s file content that is **not** recognized
as a builtin module of `a`'s language (builtins are filtered before
resolution) and that resolves to `b`; unresolvable imports, whose
resolution is the empty string, produce no edge, and the builder is a
total function (no exception). -/
theorem c1_graph_soundness (raw : String → String → List String)
    (files : List SrcFile) (a b : String)
    (h : edgeMem (buildDependencyGraph raw files) a b = true) :
    b ∈ files.map Prod.fst ∧
    ∃ f ∈ files, f.1 = a ∧
      ∃ m ∈ extractImports raw f.2 (extLower a),
        isBuiltinModule m (extLower a) = false ∧
        resolveImport m a (buildFileByModule files) = b ∧ b ≠ "" := by
  unfold buildDependencyGraph at h
  rcases buildLoop_edge raw (buildFileByModule files) files [] a b h with h0 | hex
  · cases h0
  · obtain ⟨f, hf, hfa, m, hm, hres, hb⟩ := hex
    constructor
    · have hv : b ∈ (buildFileByModule files).map Prod.snd :=
        resolveImport_mem_values m a (buildFileByModule files) b hres hb
      rcases List.mem_map.mp hv with ⟨e, he, hev⟩
      exact hev ▸ buildFileByModule_values files e he
    · refine ⟨f, hf, hfa, m, hfa ▸ hm, ?_, hres, hb⟩
      have hm' := hm
      unfold extractImports at hm'
      have := (List.mem_filter.mp hm').2
      rw [hfa] at this
      simpa using this

/-- Witness for C1 on the Scenario-A input: the edge `a.py → b.py` exists
and its target is an input path produced by a non-builtin import. -/
theorem c1_graph_soundness_witness :
    "b.py" ∈ ([("a.py", "import b"), ("b.py", "")] : List SrcFile).map Prod.fst ∧
    ∃ f ∈ ([("a.py", "import b"), ("b.py", "")] : List SrcFile), f.1 = "a.py" ∧
      ∃ m ∈ extractImports pyImportMatcher f.2 (extLower "a.py"),
        isBuiltinModule m (extLower "a.py") = false ∧
        resolveImport m "a.py"
          (buildFileByModule [("a.py", "import b"), ("b.py", "")]) = "b.py" ∧
        "b.py" ≠ "" :=
  c1_graph_soundness pyImportMatcher [("a.py", "import b"), ("b.py", "")]
    "a.py" "b.py" (by decide)

/-- Claim C10. For a non-empty input, `analyze` caps
`dependency_analysis.important_files` at 20 paths, every per-category
summary's `important_files` at 10 paths, and `file_summaries` has an entry
only for categories with at least one file. -/
theorem c10_result_size_caps (raw : String → String → List String)
    (files : List SrcFile) (h : files ≠ []) :
    (depImportantOf (repoAnalyze raw files)).length ≤ 20 ∧
    ∀ e ∈ fileSummariesOf (repoAnalyze raw files),
      e.2.importantFiles.length ≤ 10 ∧
      ∃ cfs, (e.1, cfs) ∈ categorizeFiles files ∧ cfs ≠ [] := by
  have hne : ¬ (files.isEmpty = true) := by
    cases files with
    | nil => exact absurd rfl h
    | cons f t => simp
  unfold repoAnalyze repoAnalyzeWith
  rw [if_neg hne]
  dsimp only [depImportantOf, fileSummariesOf]
  constructor
  · rw [List.length_take]
    exact min_le_left _ _
  · intro e he
    rcases List.mem_map.mp he with ⟨orig, horig, hEq⟩
    have hmem := (List.mem_filter.mp horig).1
    have hnonempty := (List.mem_filter.mp horig).2
    constructor
    · rw [← hEq]
      dsimp only [createFileSummary]
      rw [List.length_map, List.length_take]
      exact min_le_left _ _
    · refine ⟨orig.2, ?_, ?_⟩
      · rw [← hEq]
        simpa using hmem
      · intro hempty
        rw [hempty] at hnonempty
        simp at hnonempty

/-- Witness for C10 on a one-file repository. -/
theorem c10_result_size_caps_witness :
    (depImportantOf (repoAnalyze pyImportMatcher [("x.py", "")])).length ≤ 20 ∧
    ∀ e ∈ fileSummariesOf (repoAnalyze pyImportMatcher [("x.py", "")]),
      e.2.importantFiles.length ≤ 10 ∧
      ∃ cfs, (e.1, cfs) ∈ categorizeFiles [("x.py", "")] ∧ cfs ≠ [] :=
  c10_result_size_caps pyImportMatcher [("x.py", "")] (by decide)

/-! ### Budget lemmas (C6, C7)

The claim's per-file estimated cost uses the file's language, which
`_group_files_by_language` derives from the extension; `fileLang` recovers
it from the file itself, and `GroupedCoherent` states that every bucket is
keyed by its files' language — true of every grouping the sampler
receives. -/

/-- The language key under which `_group_files_by_language` files a file:
its lowered extension without the dot. -/
def fileLang (f : SrcFile) : String := String.mk (extLower f.1).toList.tail

/-- The claim's cost sum: estimated tokens of each file at its own
language. -/
def sumTokens (est : String → String → Nat) (l : List SrcFile) : Nat :=
  (l.map fun f => est (fileLang f) f.2).sum

/-- Every bucket of the grouped dictionary is keyed by its files'
language. -/
def GroupedCoherent (g : Grouped) : Prop :=
  ∀ e ∈ g, ∀ f ∈ e.2, fileLang f = e.1

lemma sumTokens_append (est : String → String → Nat) (a b : List SrcFile) :
    sumTokens est (a ++ b) = sumTokens est a + sumTokens est b := by
  simp [sumTokens]

lemma sumTokens_flatten (est : String → String → Nat) (ll : List (List SrcFile)) :
    sumTokens est ll.flatten = (ll.map (sumTokens est)).sum := by
  induction ll with
  | nil => rfl
  | cons x t ih =>
    rw [List.flatten_cons, sumTokens_append, ih, List.map_cons, List.sum_cons]

lemma groupAdd_coherent (lang : String) (f : SrcFile) (hf : fileLang f = lang) :
    ∀ g : Grouped, GroupedCoherent g → GroupedCoherent (groupAdd g lang f) := by
  intro g
  induction g with
  | nil =>
    intro _ e he f' hf'
    unfold groupAdd at he
    have h1 := List.mem_singleton.mp he
    subst h1
    have h2 := List.mem_singleton.mp hf'
    subst h2
    exact hf
  | cons x t ih =>
    obtain ⟨k, fs⟩ := x
    intro hg e he f' hf'
    unfold groupAdd at he
    split at he
    · rename_i hkx
      rcases List.mem_cons.mp he with h1 | ht
      · subst h1
        rcases List.mem_append.mp hf' with hin | hone
        · exact hg (k, fs) (List.mem_cons_self _ _) f' hin
        · have h2 := List.mem_singleton.mp hone
          subst h2
          show fileLang f' = k
          exact hf.trans (beq_iff_eq.mp hkx).symm
      · exact hg e (List.mem_cons_of_mem _ ht) f' hf'
    · rcases List.mem_cons.mp he with h1 | ht
      · subst h1
        exact hg (k, fs) (List.mem_cons_self _ _) f' hf'
      · exact ih (fun e' he' => hg e' (List.mem_cons_of_mem _ he')) e ht f' hf'

lemma groupFilesByLanguage_coherent (codeFiles : List SrcFile) :
    GroupedCoherent (groupFilesByLanguage codeFiles) := by
  unfold groupFilesByLanguage
  suffices hgen : ∀ (l : List SrcFile) (acc : Grouped), GroupedCoherent acc →
      GroupedCoherent (l.foldl
        (fun acc f =>
          let ext := extLower f.1
          if ext ≠ "" then groupAdd acc (String.mk ext.toList.tail) f else acc) acc) by
    exact hgen codeFiles [] (fun e he => absurd he (List.not_mem_nil e))
  intro l
  induction l with
  | nil => intro acc hacc; exact hacc
  | cons f t ih =>
    intro acc hacc
    rw [List.foldl_cons]
    refine ih _ ?_
    dsimp only
    split
    · exact groupAdd_coherent _ f rfl acc hacc
    · exact hacc

lemma groupRemovePath_coherent (g : Grouped) (lang path : String)
    (hg : GroupedCoherent g) : GroupedCoherent (groupRemovePath g lang path) := by
  intro e he f hf
  unfold groupRemovePath at he
  rcases List.mem_map.mp he with ⟨e', he', hEq⟩
  by_cases hk : (e'.1 == lang) = true
  · rw [if_pos hk] at hEq
    subst hEq
    exact hg e' he' f (List.mem_of_mem_filter hf)
  · rw [if_neg hk] at hEq
    subst hEq
    exact hg e' he' f hf

lemma keyFiles_lang (g : Grouped) (hg : GroupedCoherent g) :
    ∀ x ∈ keyFiles g, x.2.2 = fileLang (x.1, x.2.1) := by
  intro x hx
  unfold keyFiles at hx
  rcases List.mem_flatten.mp hx with ⟨l, hl, hxl⟩
  rcases List.mem_map.mp hl with ⟨e, he, hEq⟩
  subst hEq
  rcases List.mem_map.mp hxl with ⟨f, hf, hfx⟩
  subst hfx
  exact (hg e he f (List.mem_of_mem_filter hf)).symm

lemma mem_insertDescBySize (x : String × String × String) :
    ∀ (l : List (String × String × String)) (y : String × String × String),
      y ∈ insertDescBySize x l → y = x ∨ y ∈ l := by
  intro l
  induction l with
  | nil =>
    intro y h
    unfold insertDescBySize at h
    exact Or.inl (List.mem_singleton.mp h)
  | cons z t ih =>
    intro y h
    unfold insertDescBySize at h
    split at h
    · rcases List.mem_cons.mp h with h1 | ht
      · exact Or.inl h1
      · exact Or.inr ht
    · rcases List.mem_cons.mp h with h1 | ht
      · exact Or.inr (by rw [h1]; exact List.mem_cons_self _ _)
      · rcases ih y ht with h1 | h2
        · exact Or.inl h1
        · exact Or.inr (List.mem_cons_of_mem _ h2)

lemma mem_sortKeyFilesDesc (l : List (String × String × String))
    (x : String × String × String) (h : x ∈ sortKeyFilesDesc l) : x ∈ l := by
  unfold sortKeyFilesDesc at h
  suffices hgen : ∀ (l' : List (String × String × String)) acc,
      x ∈ l'.foldl (fun acc y => insertDescBySize y acc) acc → x ∈ acc ∨ x ∈ l' by
    rcases hgen l [] h with h1 | h2
    · exact absurd h1 (List.not_mem_nil x)
    · exact h2
  intro l'
  induction l' with
  | nil => intro acc h'; exact Or.inl h'
  | cons z t ih =>
    intro acc h'
    rw [List.foldl_cons] at h'
    rcases ih _ h' with h1 | h2
    · rcases mem_insertDescBySize z acc x h1 with h3 | h4
      · exact Or.inr (by rw [h3]; exact List.mem_cons_self _ _)
      · exact Or.inl h4
    · exact Or.inr (List.mem_cons_of_mem _ h2)

lemma mem_insertAscBySize (x : SrcFile) :
    ∀ (l : List SrcFile) (y : SrcFile),
      y ∈ insertAscBySize x l → y = x ∨ y ∈ l := by
  intro l
  induction l with
  | nil =>
    intro y h
    unfold insertAscBySize at h
    exact Or.inl (List.mem_singleton.mp h)
  | cons z t ih =>
    intro y h
    unfold insertAscBySize at h
    split at h
    · rcases List.mem_cons.mp h with h1 | ht
      · exact Or.inl h1
      · exact Or.inr ht
    · rcases List.mem_cons.mp h with h1 | ht
      · exact Or.inr (by rw [h1]; exact List.mem_cons_self _ _)
      · rcases ih y ht with h1 | h2
        · exact Or.inl h1
        · exact Or.inr (List.mem_cons_of_mem _ h2)

lemma mem_sortFilesAsc (l : List SrcFile) (x : SrcFile)
    (h : x ∈ sortFilesAsc l) : x ∈ l := by
  unfold sortFilesAsc at h
  suffices hgen : ∀ (l' : List SrcFile) acc,
      x ∈ l'.foldl (fun acc y => insertAscBySize y acc) acc → x ∈ acc ∨ x ∈ l' by
    rcases hgen l [] h with h1 | h2
    · exact absurd h1 (List.not_mem_nil x)
    · exact h2
  intro l'
  induction l' with
  | nil => intro acc h'; exact Or.inl h'
  | cons z t ih =>
    intro acc h'
    rw [List.foldl_cons] at h'
    rcases ih _ h' with h1 | h2
    · rcases mem_insertAscBySize z acc x h1 with h3 | h4
      · exact Or.inr (by rw [h3]; exact List.mem_cons_self _ _)
      · exact Or.inl h4
    · exact Or.inr (List.mem_cons_of_mem _ h2)

lemma pass1_spec (est : String → String → Nat) :
    ∀ (kf : List (String × String × String)) (s : List SrcFile) (t : Nat)
      (g : Grouped),
      (∀ x ∈ kf, x.2.2 = fileLang (x.1, x.2.1)) →
      t = sumTokens est s → t ≤ maxTokens → GroupedCoherent g →
      (pass1 est kf (s, t, g)).2.1 = sumTokens est (pass1 est kf (s, t, g)).1 ∧
      (pass1 est kf (s, t, g)).2.1 ≤ maxTokens ∧
      GroupedCoherent (pass1 est kf (s, t, g)).2.2 := by
  intro kf
  induction kf with
  | nil => intro s t g _ h1 h2 h3; exact ⟨h1, h2, h3⟩
  | cons x rest ih =>
    obtain ⟨p, c, lang⟩ := x
    intro s t g hkf h1 h2 h3
    have hlang : lang = fileLang (p, c) :=
      hkf (p, c, lang) (List.mem_cons_self _ _)
    unfold pass1
    dsimp only
    split
    · rename_i hle
      refine ih (s ++ [(p, c)]) _ _
        (fun y hy => hkf y (List.mem_cons_of_mem _ hy)) ?_ hle
        (groupRemovePath_coherent g lang p h3)
      rw [sumTokens_append, ← h1, hlang]
      simp [sumTokens]
    · exact ih s t g (fun y hy => hkf y (List.mem_cons_of_mem _ hy)) h1 h2 h3

lemma pass1_extends (est : String → String → Nat) :
    ∀ (kf : List (String × String × String)) (s : List SrcFile) (t : Nat)
      (g : Grouped), ∃ u, (pass1 est kf (s, t, g)).1 = s ++ u := by
  intro kf
  induction kf with
  | nil => intro s t g; exact ⟨[], (List.append_nil s).symm⟩
  | cons x rest ih =>
    obtain ⟨p, c, lang⟩ := x
    intro s t g
    unfold pass1
    dsimp only
    split
    · rcases ih (s ++ [(p, c)]) (t + est lang c) (groupRemovePath g lang p) with ⟨u, hu⟩
      exact ⟨[(p, c)] ++ u, by rw [hu, List.append_assoc]⟩
    · exact ih s t g

lemma pass1_unchanged (est : String → String → Nat) :
    ∀ (kf : List (String × String × String)) (s : List SrcFile) (t : Nat)
      (g : Grouped), (pass1 est kf (s, t, g)).1 = s →
      (pass1 est kf (s, t, g)).2.2 = g := by
  intro kf
  induction kf with
  | nil => intro s t g _; rfl
  | cons x rest ih =>
    obtain ⟨p, c, lang⟩ := x
    intro s t g hs
    unfold pass1 at hs ⊢
    dsimp only at hs ⊢
    split at hs
    · exfalso
      rcases pass1_extends est rest (s ++ [(p, c)]) (t + est lang c)
          (groupRemovePath g lang p) with ⟨u, hu⟩
      rw [hu] at hs
      have hlen := congrArg List.length hs
      simp only [List.length_append, List.length_cons, List.length_nil] at hlen
      omega
    · rename_i hgt
      rw [if_neg hgt]
      exact ih s t g hs

lemma getD_mem_of_lt {α : Type} (l : List α) (i : Nat) (d : α)
    (h : i < l.length) : l.getD i d ∈ l := by
  rw [List.getD_eq_getElem l d h]
  exact List.getElem_mem h

lemma greedyTake_go (est : String → String → Nat) (lang : String) (alloc : Nat) :
    ∀ (l : List SrcFile) (sel : List SrcFile) (cnt : Nat),
      cnt = sumTokens est sel → cnt ≤ alloc →
      (∀ f ∈ l, fileLang f = lang) →
      (l.foldl (greedyStep est lang alloc) (sel, cnt)).2 =
        sumTokens est (l.foldl (greedyStep est lang alloc) (sel, cnt)).1 ∧
      (l.foldl (greedyStep est lang alloc) (sel, cnt)).2 ≤ alloc := by
  intro l
  induction l with
  | nil => intro sel cnt h1 h2 _; exact ⟨h1, h2⟩
  | cons f t ih =>
    intro sel cnt h1 h2 h3
    rw [List.foldl_cons]
    by_cases hle : cnt + est lang f.2 ≤ alloc
    · have hstep : greedyStep est lang alloc (sel, cnt) f =
          (sel ++ [f], cnt + est lang f.2) := by
        unfold greedyStep
        dsimp only
        rw [if_pos hle]
      rw [hstep]
      refine ih (sel ++ [f]) (cnt + est lang f.2) ?_ hle
        (fun f' hf' => h3 f' (List.mem_cons_of_mem _ hf'))
      rw [sumTokens_append, ← h1, ← h3 f (List.mem_cons_self _ _)]
      simp [sumTokens]
    · have hstep : greedyStep est lang alloc (sel, cnt) f = (sel, cnt) := by
        unfold greedyStep
        dsimp only
        rw [if_neg hle]
      rw [hstep]
      exact ih sel cnt h1 h2 (fun f' hf' => h3 f' (List.mem_cons_of_mem _ hf'))

lemma langSampleOf_subset (pick : List SrcFile → List SrcFile)
    (hpick : ∀ l, ∀ x ∈ pick l, x ∈ l) (sorted : List SrcFile) :
    ∀ f ∈ langSampleOf pick sorted, f ∈ sorted := by
  intro f hf
  unfold langSampleOf at hf
  split at hf
  · exact hf
  · rename_i hgt
    rw [Nat.not_le] at hgt
    dsimp only at hf
    have hbase : ∀ x ∈ [sorted.getD 0 ("", ""),
        sorted.getD (sorted.length / 2) ("", ""),
        sorted.getD (sorted.length - 1) ("", "")], x ∈ sorted := by
      intro x hx
      rcases List.mem_cons.mp hx with h | hx
      · exact h ▸ getD_mem_of_lt sorted 0 _ (by omega)
      rcases List.mem_cons.mp hx with h | hx
      · exact h ▸ getD_mem_of_lt sorted _ _ (Nat.div_lt_self (by omega) (by omega))
      rcases List.mem_cons.mp hx with h | hx
      · exact h ▸ getD_mem_of_lt sorted _ _ (by omega)
      · exact absurd hx (List.not_mem_nil x)
    split at hf
    · rcases List.mem_append.mp hf with h | h
      · exact hbase f h
      · exact List.mem_of_mem_filter (hpick _ f h)
    · exact hbase f hf

lemma pass2lang_spec (est : String → String → Nat)
    (pick : List SrcFile → List SrcFile)
    (hpick : ∀ l, ∀ x ∈ pick l, x ∈ l)
    (remaining totalSize : Nat) (lang : String) (fs : List SrcFile)
    (hcoh : ∀ f ∈ fs, fileLang f = lang) :
    (pass2lang est pick remaining totalSize lang fs).2 =
      sumTokens est (pass2lang est pick remaining totalSize lang fs).1 ∧
    (pass2lang est pick remaining totalSize lang fs).2 ≤
      (if totalSize > 0 then groupSize fs * remaining / totalSize else 0) := by
  unfold pass2lang
  dsimp only
  by_cases halloc :
      (if totalSize > 0 then groupSize fs * remaining / totalSize else 0) = 0
  · rw [if_pos halloc]
    exact ⟨rfl, Nat.zero_le _⟩
  · rw [if_neg halloc]
    exact greedyTake_go est lang _ (langSampleOf pick (sortFilesAsc fs)) [] 0 rfl
      (Nat.zero_le _)
      (fun f hf => hcoh f (mem_sortFilesAsc fs f
        (langSampleOf_subset pick hpick (sortFilesAsc fs) f hf)))

lemma nat_div_add_div_le (a b c : Nat) : a / c + b / c ≤ (a + b) / c := by
  rcases Nat.eq_zero_or_pos c with h | h
  · subst h
    simp
  · rw [Nat.le_div_iff_mul_le h, Nat.add_mul]
    exact Nat.add_le_add (Nat.div_mul_le_self a c) (Nat.div_mul_le_self b c)

lemma sum_div_le (c : Nat) : ∀ l : List Nat, (l.map fun a => a / c).sum ≤ l.sum / c := by
  intro l
  induction l with
  | nil => simp
  | cons a t ih =>
    rw [List.map_cons, List.sum_cons, List.sum_cons]
    exact (Nat.add_le_add_left ih _).trans (nat_div_add_div_le a t.sum c)

lemma sum_map_mul_right_nat (R : Nat) : ∀ l : List Nat,
    (l.map fun s => s * R).sum = l.sum * R := by
  intro l
  induction l with
  | nil => simp
  | cons a t ih =>
    rw [List.map_cons, List.sum_cons, List.sum_cons, ih, Nat.add_mul]

lemma allocSum_le (R : Nat) (sizes : List Nat) :
    (sizes.map fun s => s * R / sizes.sum).sum ≤ R := by
  rcases Nat.eq_zero_or_pos sizes.sum with h | h
  · have hz : (sizes.map fun s => s * R / sizes.sum).sum = 0 := by
      rw [h]
      simp
    rw [hz]
    exact Nat.zero_le R
  · have h1 : (sizes.map fun s => s * R / sizes.sum).sum ≤
        (sizes.map fun s => s * R).sum / sizes.sum := by
      have hd := sum_div_le sizes.sum (sizes.map fun s => s * R)
      rw [List.map_map] at hd
      exact hd
    rw [sum_map_mul_right_nat R sizes, Nat.mul_div_cancel_left R h] at h1
    exact h1

lemma selectMain_budget (est : String → String → Nat)
    (pick : List SrcFile → List SrcFile)
    (hpick : ∀ l, ∀ x ∈ pick l, x ∈ l)
    (g : Grouped) (hg : GroupedCoherent g) :
    sumTokens est (selectMainOf est pick g) ≤ maxTokens := by
  unfold selectMainOf pass1Result
  dsimp only
  have hkf : ∀ x ∈ (sortKeyFilesDesc (keyFiles g)).take 5,
      x.2.2 = fileLang (x.1, x.2.1) := fun x hx =>
    keyFiles_lang g hg x (mem_sortKeyFilesDesc _ x (List.mem_of_mem_take hx))
  obtain ⟨h1, h2, h3⟩ := pass1_spec est ((sortKeyFilesDesc (keyFiles g)).take 5)
    [] 0 g hkf rfl (Nat.zero_le _) hg
  set r := pass1 est ((sortKeyFilesDesc (keyFiles g)).take 5) ([], 0, g) with hr
  rw [sumTokens_append, sumTokens_flatten, List.map_map]
  have hper : ∀ e ∈ r.2.2,
      (sumTokens est ∘ fun e => (pass2lang est pick (maxTokens - r.2.1)
        (totalSizeOf r.2.2) e.1 e.2).1) e ≤
      (if totalSizeOf r.2.2 > 0 then
        groupSize e.2 * (maxTokens - r.2.1) / totalSizeOf r.2.2 else 0) := by
    intro e he
    have hspec := pass2lang_spec est pick hpick (maxTokens - r.2.1)
      (totalSizeOf r.2.2) e.1 e.2 (h3 e he)
    simp only [Function.comp]
    rw [← hspec.1]
    exact hspec.2
  have hsum : ((r.2.2.map (sumTokens est ∘ fun e =>
      (pass2lang est pick (maxTokens - r.2.1) (totalSizeOf r.2.2) e.1 e.2).1)).sum ≤
      (r.2.2.map fun e => (if totalSizeOf r.2.2 > 0 then
        groupSize e.2 * (maxTokens - r.2.1) / totalSizeOf r.2.2 else 0)).sum) :=
    List.sum_le_sum hper
  have halloc : (r.2.2.map fun e => (if totalSizeOf r.2.2 > 0 then
      groupSize e.2 * (maxTokens - r.2.1) / totalSizeOf r.2.2 else 0)).sum ≤
      maxTokens - r.2.1 := by
    by_cases hts : totalSizeOf r.2.2 > 0
    · simp only [if_pos hts]
      have h := allocSum_le (maxTokens - r.2.1) (r.2.2.map fun e => groupSize e.2)
      rw [List.map_map] at h
      have hts_eq : (r.2.2.map fun e => groupSize e.2).sum = totalSizeOf r.2.2 := rfl
      rw [hts_eq] at h
      exact h
    · simp only [if_neg hts]
      simp
  have hfin := hsum.trans halloc
  rw [← h1]
  omega

/-- Claim C6. Budget respect, for every token-estimate function (covering the
floating-point values the source computes) and every admissible
`random.sample` outcome: the sum of the estimated token costs of the files
selected by the two budget passes of `_select_code_sample` never exceeds
`MAX_TOKENS`; whenever those passes select at least one file the returned
sample is exactly their selection (so its cost sum is within budget), and
otherwise the result is the single-file fallback (at most one file), the
only case that may exceed the budget. -/
theorem c6_budget_respect (est : String → String → Nat)
    (pick : List SrcFile → List SrcFile)
    (hpick : ∀ l, ∀ x ∈ pick l, x ∈ l) (codeFiles : List SrcFile) :
    sumTokens est (selectMainOf est pick (groupFilesByLanguage codeFiles)) ≤
      maxTokens ∧
    (selectMainOf est pick (groupFilesByLanguage codeFiles) ≠ [] →
      selectCodeSample est pick (groupFilesByLanguage codeFiles) =
        selectMainOf est pick (groupFilesByLanguage codeFiles)) ∧
    (selectMainOf est pick (groupFilesByLanguage codeFiles) = [] →
      (selectCodeSample est pick (groupFilesByLanguage codeFiles)).length ≤ 1) := by
  refine ⟨selectMain_budget est pick hpick _
    (groupFilesByLanguage_coherent codeFiles), ?_, ?_⟩
  · intro hne
    unfold selectCodeSample
    dsimp only
    rw [if_neg]
    intro hcond
    rw [Bool.and_eq_true] at hcond
    exact hne (List.isEmpty_iff.mp hcond.1)
  · intro heq
    unfold selectCodeSample
    dsimp only
    rw [heq]
    split
    · unfold fallbackPick
      split
      · simp
      · simp
    · simp

/-- Witness for C6 with the concrete rational token estimate and the
take-two sampler model on a one-file candidate set. -/
theorem c6_budget_respect_witness :
    sumTokens tokensEstimate
      (selectMainOf tokensEstimate pickTake2
        (groupFilesByLanguage [("m.py", "hello")])) ≤ maxTokens ∧
    (selectMainOf tokensEstimate pickTake2
        (groupFilesByLanguage [("m.py", "hello")]) ≠ [] →
      selectCodeSample tokensEstimate pickTake2
          (groupFilesByLanguage [("m.py", "hello")]) =
        selectMainOf tokensEstimate pickTake2
          (groupFilesByLanguage [("m.py", "hello")])) ∧
    (selectMainOf tokensEstimate pickTake2
        (groupFilesByLanguage [("m.py", "hello")]) = [] →
      (selectCodeSample tokensEstimate pickTake2
        (groupFilesByLanguage [("m.py", "hello")])).length ≤ 1) :=
  c6_budget_respect tokensEstimate pickTake2
    (fun _ _ hx => List.mem_of_mem_take hx) [("m.py", "hello")]

/-- Claim C7 (amended). `_select_code_sample` never raises on an empty
candidate dictionary (it returns the empty list), and whenever some
language bucket is non-empty the result is non-empty: if the budget passes
selected nothing, the fallback force-includes one file — the smallest file
of the **first** language bucket that has files (not necessarily the
globally smallest candidate). -/
theorem c7_fallback_amended (est : String → String → Nat)
    (pick : List SrcFile → List SrcFile) :
    selectCodeSample est pick [] = [] ∧
    (∀ g : Grouped, (∃ e ∈ g, e.2 ≠ []) → selectCodeSample est pick g ≠ []) := by
  constructor
  · rfl
  · rintro g ⟨e, he, hene⟩
    by_cases hmain : selectMainOf est pick g = []
    · unfold selectCodeSample
      dsimp only
      have hs1 : (pass1Result est g).1 = [] := by
        unfold selectMainOf at hmain
        dsimp only at hmain
        exact (List.append_eq_nil.mp hmain).1
      have hg1 : (pass1Result est g).2.2 = g := by
        unfold pass1Result at hs1 ⊢
        exact pass1_unchanged est _ [] 0 g hs1
      rw [hmain, hg1]
      have hgne : g ≠ [] := by
        intro h0
        rw [h0] at he
        exact absurd he (List.not_mem_nil e)
      have hcond : (([] : List SrcFile).isEmpty && !g.isEmpty) = true := by
        cases g with
        | nil => exact absurd rfl hgne
        | cons a t => rfl
      rw [if_pos hcond]
      unfold fallbackPick
      cases hfind : g.find? (fun e => !e.2.isEmpty) with
      | none =>
        exfalso
        have := List.find?_eq_none.mp hfind e he
        have hene' : (!e.2.isEmpty) = true := by
          cases h2 : e.2 with
          | nil => exact absurd h2 hene
          | cons a t => rfl
        exact this hene'
      | some y => simp
    · unfold selectCodeSample
      dsimp only
      rw [if_neg]
      · exact hmain
      · intro hcond
        rw [Bool.and_eq_true] at hcond
        exact hmain (List.isEmpty_iff.mp hcond.1)

/-- Witness for C7 (amended): a one-bucket candidate dictionary yields a
non-empty selection. -/
theorem c7_fallback_witness :
    selectCodeSample tokensEstimate pickTake2 [("py", [("w.py", "x")])] ≠ [] :=
  (c7_fallback_amended tokensEstimate pickTake2).2 [("py", [("w.py", "x")])]
    ⟨("py", [("w.py", "x")]), List.Mem.head _, by decide⟩

/-- A 228600-character Rust file: large enough that its token estimate
(`228600 · 0.35 = 80010`) exceeds its proportional allocation
(`⌊228600 · 80000 / 228601⌋ = 79999`). -/
def bigRsContent : String := String.mk (List.replicate 228600 'x')

/-- Candidate set for the C7 counterexample: a huge `.rs` file (first
language bucket) and a tiny `.py` file (second bucket, allocation 0). -/
def c7Candidates : List SrcFile := [("a.rs", bigRsContent), ("b.py", "x")]

set_option maxHeartbeats 2000000 in
/-- The C7 counterexample computation with the huge content generalized to
any 228600-character string (keeps every intermediate goal small). -/
lemma c7_general (s : String) (hlen : s.toList.length = 228600) :
    (selectCodeSample tokensEstimate pickTake2
      (groupFilesByLanguage [("a.rs", s), ("b.py", "x")])).map Prod.fst
        = ["a.rs"] ∧
    ("b.py", "x") ∈
      ((groupFilesByLanguage [("a.rs", s), ("b.py", "x")]).map Prod.snd).flatten ∧
    ("x" : String).toList.length < s.toList.length := by
  have hlen' : s.length = 228600 := hlen
  have hx : ("x" : String).toList.length = 1 := rfl
  have hx' : ("x" : String).length = 1 := rfl
  have hgrp : groupFilesByLanguage [("a.rs", s), ("b.py", "x")] =
      [("rs", [("a.rs", s)]), ("py", [("b.py", "x")])] := rfl
  have hpass1 : pass1Result tokensEstimate
      (groupFilesByLanguage [("a.rs", s), ("b.py", "x")]) =
      ([], 0, groupFilesByLanguage [("a.rs", s), ("b.py", "x")]) := rfl
  have hgsize : groupSize [("a.rs", s)] = 228600 := by
    simp [groupSize, hlen, hlen']
  have htsLit : totalSizeOf
      [("rs", [("a.rs", s)]), ("py", [("b.py", "x")])] = 228601 := by
    simp [totalSizeOf, groupSize, hlen, hlen', hx, hx']
  have hest : tokensEstimate "rs" s = 80010 := by
    unfold tokensEstimate
    dsimp only
    rw [show assocLookup tokensPerChar "rs" = some (7, 20) from rfl]
    dsimp only
    rw [hlen]
  have hp2rs : pass2lang tokensEstimate pickTake2 (maxTokens - 0) 228601 "rs"
      [("a.rs", s)] = ([], 0) := by
    unfold pass2lang
    dsimp only
    have ha : (if 228601 > 0 then
        groupSize [("a.rs", s)] * (maxTokens - 0) / 228601 else 0) = 79999 := by
      rw [if_pos (by decide : 228601 > 0), hgsize]
      decide
    rw [ha, if_neg (by decide : ¬ (79999 = 0))]
    have hls : langSampleOf pickTake2 (sortFilesAsc [("a.rs", s)]) =
        [("a.rs", s)] := rfl
    rw [hls]
    unfold greedyTake
    have hstep : greedyStep tokensEstimate "rs" 79999 ([], 0) ("a.rs", s)
        = ([], 0) := by
      unfold greedyStep
      dsimp only
      rw [hest]
      rw [if_neg (by decide : ¬ (0 + 80010 ≤ 79999))]
    rw [List.foldl_cons, hstep, List.foldl_nil]
  have hp2py : pass2lang tokensEstimate pickTake2 (maxTokens - 0) 228601 "py"
      [("b.py", "x")] = ([], 0) := by
    unfold pass2lang
    dsimp only
    have ha : (if 228601 > 0 then
        groupSize [("b.py", "x")] * (maxTokens - 0) / 228601 else 0) = 0 := by
      rw [if_pos (by decide : 228601 > 0)]
      decide
    rw [ha, if_pos rfl]
  have hmain : selectMainOf tokensEstimate pickTake2
      (groupFilesByLanguage [("a.rs", s), ("b.py", "x")]) = [] := by
    unfold selectMainOf
    dsimp only
    rw [hpass1]
    dsimp only
    rw [hgrp, htsLit, List.map_cons, List.map_cons, List.map_nil]
    dsimp only
    rw [hp2rs, hp2py]
    rfl
  have hsel : selectCodeSample tokensEstimate pickTake2
      (groupFilesByLanguage [("a.rs", s), ("b.py", "x")])
      = [("a.rs", s)] := by
    unfold selectCodeSample
    dsimp only
    rw [hmain]
    rfl
  refine ⟨?_, ?_, ?_⟩
  · rw [hsel]
    rfl
  · rw [hgrp]
    exact List.mem_cons_of_mem _ (List.mem_cons_self _ _)
  · rw [hlen, hx]
    decide

/-- Claim C7 counterexample. On `c7Candidates` both budget passes select
nothing, and the fallback force-includes the huge `a.rs` file — the
smallest file of the **first** language bucket — even though the candidate
`b.py` is strictly smaller: the claim's "single smallest candidate (by
content length) is force-included" fails.  (The result is still
non-empty.) -/
theorem c7_smallest_counterexample :
    (selectCodeSample tokensEstimate pickTake2
      (groupFilesByLanguage c7Candidates)).map Prod.fst = ["a.rs"] ∧
    ("b.py", "x") ∈ ((groupFilesByLanguage c7Candidates).map Prod.snd).flatten ∧
    ("x" : String).toList.length < bigRsContent.toList.length :=
  c7_general bigRsContent
    (show (List.replicate 228600 'x').length = 228600 from
      List.length_replicate 228600 'x')

end CodeSorcerer
